import Mathlib


/-!
# carbon-addons-iot-react: utility functions and component logic

Shallow embedding of `packages/react/src/utils/componentUtilityFunctions.js`,
`components/ImageCard/ImageHotspots.jsx` and `components/Table/TableHead/TableHead.jsx`.

Conventions of the embedding:
* a JavaScript exception is an explicit error value (`JsError.typeError`);
* a `while` loop is a function that recurses on a fuel argument; the fuel handed over by the
  caller is shown to be sufficient, so `JsError.outOfFuel` never comes out of `getLayout`;
* a JavaScript array of numbers is a list of cells, `none` being `undefined` (a hole).
-/

namespace CarbonIot

/-! ## Dashboard layout: `canFit` and `getLayout` -/

/-- The ways an embedded computation can fail to produce a value. -/
inductive JsError where
  | typeError
  | outOfFuel
  deriving DecidableEq, Repr

/-- The constant `gridHeight` of componentUtilityFunctions.js. -/
def gridHeight : Nat := 200

/-- A column of the grid: a JavaScript array of numbers (`none` is `undefined`). -/
abbrev GridColumn := List (Option Nat)

/-- The grid: `grid[i][j]` is the cell in column `i`, row `j`. -/
abbrev Grid := List GridColumn

/-- Inner loop of `canFit` for the column `i`: `n` iterations starting at row `j`.
`none` is the TypeError of reading `.length` of an undefined `grid[i]`; `some false` is the
early `return false`; `some true` means the loop ran to its end. -/
def canFitColumn (grid : Grid) (i : Nat) : Nat → Nat → Option Bool
  | _, 0 => some true
  | j, n + 1 =>
    if grid.length = i then some false
    else
      match grid[i]? with
      | none => none
      | some col =>
        if col.length = j then some false
        else if col[j]? ≠ some (some 0) then some false
        else canFitColumn grid i (j + 1) n

/-- Outer loop of `canFit`: `m` iterations starting at column `i`. -/
def canFitFrom (grid : Grid) (y h : Nat) : Nat → Nat → Option Bool
  | _, 0 => some true
  | i, m + 1 =>
    match canFitColumn grid i y h with
    | some true => canFitFrom grid y h (i + 1) m
    | r => r

/-- The function `canFit (x, y, w, h, grid)`. -/
def canFit (x y w h : Nat) (grid : Grid) : Option Bool :=
  canFitFrom grid y h x w

/-- The assignment `col[j] = num` on a JavaScript array: inside the array it overwrites the
cell, beyond its end the array grows and the skipped cells are holes. -/
def assignCell (col : GridColumn) (j num : Nat) : GridColumn :=
  if j < col.length then col.set j (some num)
  else col ++ List.replicate (j - col.length) none ++ [some num]

/-- Inner loop of `placeCard` on the column `grid[i]`: `n` assignments starting at row `j`. -/
def placeColumn (num : Nat) : GridColumn → Nat → Nat → GridColumn
  | col, _, 0 => col
  | col, j, n + 1 => placeColumn num (assignCell col j num) (j + 1) n

/-- Outer loop of `placeCard`: `m` columns starting at column `i`. When the inner loop runs
(`h > 0`) on an undefined `grid[i]` the assignment throws a TypeError. -/
def placeFrom (y h num : Nat) : Grid → Nat → Nat → Except JsError Grid
  | grid, _, 0 => .ok grid
  | grid, i, m + 1 =>
    if h = 0 then placeFrom y h num grid (i + 1) m
    else
      match grid[i]? with
      | none => .error .typeError
      | some col => placeFrom y h num (grid.set i (placeColumn num col y h)) (i + 1) m

/-- The local function `placeCard (x, y, w, h, num)` of `getLayout`, acting on `grid`. -/
def placeCard (x y w h num : Nat) (grid : Grid) : Except JsError Grid :=
  placeFrom y h num grid x w

/-- A card as far as `getLayout` reads it. -/
structure Card where
  id : String
  size : String
  deriving DecidableEq, Repr

/-- An entry `{ w, h }` of `cardDimensions[size][layoutName]`. -/
structure Dimensions where
  w : Nat
  h : Nat
  deriving DecidableEq, Repr

/-- An entry `{ i, x, y, w, h }` of the returned layout. -/
structure LayoutItem where
  i : String
  x : Nat
  y : Nat
  w : Nat
  h : Nat
  deriving DecidableEq, Repr

/-- The variables `currX`, `currY` and `grid` that the callback of `cards.map` closes over. -/
structure LayoutState where
  currX : Nat
  currY : Nat
  grid : Grid
  deriving DecidableEq, Repr

/-- How the `while (!canFit(...))` loop of `getLayout` ends. -/
inductive SlotSearch where
  | found (currX currY : Nat)
  | gaveUp (currX currY : Nat)
  | failed (e : JsError)
  deriving DecidableEq, Repr

/-- The loop `while (!canFit(currX, currY, w, h, grid)) { ... }` of `getLayout`;
`gaveUp` is its `return null`. -/
def findSlot (cols w h : Nat) (grid : Grid) : Nat → Nat → Nat → SlotSearch
  | 0, _, _ => .failed .outOfFuel
  | fuel + 1, currX, currY =>
    match canFit currX currY w h grid with
    | none => .failed .typeError
    | some true => .found currX currY
    | some false =>
      if currX + 1 > cols then
        if currY + 1 > gridHeight then .gaveUp 0 (currY + 1)
        else findSlot cols w h grid fuel 0 (currY + 1)
      else findSlot cols w h grid fuel (currX + 1) currY

/-- Fuel that is enough for any run of the loop on a grid of `cols` columns. -/
def slotFuel (cols : Nat) : Nat := (gridHeight + 2) * (cols + 2)

/-- The callback of `cards.map` in `getLayout`: the layout entry of one card (or `null`) and
the updated closure variables. Destructuring a missing `cardDimensions[card.size][layoutName]`
throws a TypeError. -/
def layoutCard (layoutName : String) (cols : Nat)
    (cardDimensions : String → String → Option Dimensions)
    (card : Card) (index : Nat) (st : LayoutState) :
    Except JsError (Option LayoutItem × LayoutState) :=
  match cardDimensions card.size layoutName with
  | none => .error .typeError
  | some d =>
    match findSlot cols d.w d.h st.grid (slotFuel cols) st.currX st.currY with
    | .failed e => .error e
    | .gaveUp x y => .ok (none, { st with currX := x, currY := y })
    | .found x y =>
      match placeCard x y d.w d.h (index + 1) st.grid with
      | .error e => .error e
      | .ok grid =>
        .ok (some { i := card.id, x := x, y := y, w := d.w, h := d.h },
             { currX := x + d.w, currY := y, grid := grid })

/-- The call `cards.map((card, index) => ...)` of `getLayout`, cards taken from `index` on. -/
def layoutCards (layoutName : String) (cols : Nat)
    (cardDimensions : String → String → Option Dimensions) :
    List Card → Nat → LayoutState → Except JsError (List (Option LayoutItem))
  | [], _, _ => .ok []
  | card :: rest, index, st =>
    match layoutCard layoutName cols cardDimensions card index st with
    | .error e => .error e
    | .ok (item, st') =>
      match layoutCards layoutName cols cardDimensions rest (index + 1) st' with
      | .error e => .error e
      | .ok items => .ok (item :: items)

/-- The grid `Array(cols).fill(0).map(() => Array(gridHeight).fill(0))`. -/
def emptyGrid (cols : Nat) : Grid :=
  List.replicate cols (List.replicate gridHeight (some 0))

/-- The function `getLayout (layoutName, cards, dashboardColumns, cardDimensions)`;
`dashboardColumns layoutName` is the column count `dashboardColumns[layoutName]`. -/
def getLayout (layoutName : String) (cards : List Card) (dashboardColumns : String → Nat)
    (cardDimensions : String → String → Option Dimensions) :
    Except JsError (List LayoutItem) :=
  match layoutCards layoutName (dashboardColumns layoutName) cardDimensions cards 0
      { currX := 0, currY := 0, grid := emptyGrid (dashboardColumns layoutName) } with
  | .error e => .error e
  | .ok items => .ok (items.filterMap id)

/-- The cell `(i, j)` lies in the rectangle `[x, x+w) x [y, y+h)` of a layout entry. -/
def LayoutItem.covers (e : LayoutItem) (i j : Nat) : Prop :=
  e.x ≤ i ∧ i < e.x + e.w ∧ e.y ≤ j ∧ j < e.y + e.h

/-- Two layout entries occupy disjoint cell rectangles. -/
def disjointItems (a b : LayoutItem) : Prop :=
  ∀ i j, ¬ (a.covers i j ∧ b.covers i j)

/-- The cell `(i, j)` exists in the grid and holds `0`. -/
def cellFree (grid : Grid) (i j : Nat) : Prop :=
  ∃ col, grid[i]? = some col ∧ col[j]? = some (some 0)

/-- Every cell covered by an entry placed so far is taken in the grid. -/
def Occupied (grid : Grid) (placed : List LayoutItem) : Prop :=
  ∀ e ∈ placed, ∀ i j, e.covers i j → ¬ cellFree grid i j

/-! ## `isNumberValidForMinMax` -/

/-- JavaScript truthiness of an optional number: `undefined` (`none`) and `0` are falsy. -/
def truthyNumber : Option ℚ → Bool
  | none => false
  | some q => decide (q ≠ 0)

/-- The function `isNumberValidForMinMax (value, min, max)`. A number is a rational;
`value = none` is a value that is not a number, `min = none` or `max = none` an argument
that is left out (`undefined`). `Number.isInteger` is `Rat.isInt`. -/
def isNumberValidForMinMax (value min max : Option ℚ) : Bool :=
  match value with
  | none => false
  | some v =>
    if v.isInt then
      let valid := true
      let valid :=
        match min with
        | some lo => if truthyNumber min then (if v < lo then false else valid) else valid
        | none => valid
      let valid :=
        match max with
        | some hi => if truthyNumber max then (if v > hi then false else valid) else valid
        | none => valid
      valid
    else false

/-! ## Image zoom: `calculateImageWidth`, `calculateImageHeight`, `onImageLoad`, `zoom`

Numbers are rationals; `Math.round x` is `⌊x + 1/2⌋`. -/

/-- The strings `'landscape'` and `'portrait'`. -/
inductive Orientation where
  | landscape
  | portrait
  deriving DecidableEq, Repr

/-- The object `container = { height, width, ratio, orientation }`. -/
structure Container where
  height : ℚ
  width : ℚ
  ratio : ℚ
  orientation : Orientation
  deriving DecidableEq

/-- The `image` state of ImageHotspots once an image is loaded. -/
structure Image where
  initialWidth : ℚ
  initialHeight : ℚ
  width : ℚ
  height : ℚ
  scale : ℚ
  ratio : ℚ
  orientation : Orientation
  offsetX : ℚ
  offsetY : ℚ
  deriving DecidableEq

/-- The `minimap` state of ImageHotspots. -/
structure Minimap where
  initialSize : ℚ
  width : ℚ
  height : ℚ
  guideWidth : ℚ
  guideHeight : ℚ
  offsetX : ℚ
  offsetY : ℚ
  deriving DecidableEq

/-- The `options` state of ImageHotspots; `resizable` and `draggable` are absent (`none`)
in the initial state. -/
structure Options where
  hideZoomControls : Bool
  hideHotspots : Bool
  hideMinimap : Bool
  resizable : Option Bool
  draggable : Option Bool
  deriving DecidableEq, Repr

/-- The builtin `Math.round`. -/
def mathRound (x : ℚ) : ℚ := (⌊x + 1 / 2⌋ : ℤ)

/-- The builtin `Math.abs`. -/
def mathAbs (x : ℚ) : ℚ := if x < 0 then -x else x

/-- The function `calculateImageWidth (container, orientation, ratio, scale)`. -/
def calculateImageWidth (container : Container) (orientation : Orientation) (ratio scale : ℚ) :
    ℚ :=
  (if container.orientation = orientation then
      if orientation = .landscape then
        if ratio ≥ container.ratio then container.width
        else container.height * ratio
      else if ratio ≥ container.ratio then container.height / ratio
      else container.width
    else if orientation = .landscape then container.width
    else container.height / ratio) * scale

/-- The function `calculateImageHeight (container, orientation, ratio, scale)`. -/
def calculateImageHeight (container : Container) (orientation : Orientation) (ratio scale : ℚ) :
    ℚ :=
  (if container.orientation = orientation then
      if orientation = .landscape then
        if ratio ≥ container.ratio then container.width / ratio
        else container.height
      else if ratio ≥ container.ratio then container.height
      else container.width * ratio
    else if orientation = .landscape then container.width / ratio
    else container.height) * scale

/-- What a handler hands to the state setters: `none` when the setter is not called. -/
structure SetterCalls where
  setImage : Option Image
  setMinimap : Option Minimap
  setOptions : Option Options
  deriving DecidableEq

/-- The function `onImageLoad`; `offsetWidth` and `offsetHeight` are read from the loaded
image element. -/
def onImageLoad (offsetWidth offsetHeight : ℚ) (container : Container) (image : Image)
    (minimap : Minimap) (options : Options) : SetterCalls :=
  let initialWidth := offsetWidth
  let initialHeight := offsetHeight
  let orientation : Orientation := if initialWidth > initialHeight then .landscape else .portrait
  let ratio :=
    if orientation = .landscape then initialWidth / initialHeight
    else initialHeight / initialWidth
  let width := calculateImageWidth container orientation ratio 1
  let height := calculateImageHeight container orientation ratio 1
  let resizable : Bool := initialWidth > 2 * width || initialHeight > 2 * height
  { setImage := some
      { image with
        initialWidth := initialWidth
        initialHeight := initialHeight
        width := width
        height := height
        scale := 1
        ratio := ratio
        orientation := orientation
        offsetX := 0
        offsetY := container.height / 2 - height / 2 }
    setMinimap := some
      { minimap with
        width := if orientation = .landscape then minimap.initialSize
          else minimap.initialSize / ratio
        height := if orientation = .portrait then minimap.initialSize
          else minimap.initialSize / ratio
        guideWidth := if orientation = .landscape then minimap.initialSize
          else minimap.initialSize / ratio
        guideHeight := if orientation = .portrait then minimap.initialSize
          else minimap.initialSize / ratio }
    setOptions := some
      { options with
        hideZoomControls := options.hideZoomControls || !resizable
        hideMinimap := options.hideMinimap || !resizable
        resizable := some resizable
        draggable := some false } }

/-- The function `zoom (scale, zoomMax, container, image, setImage, minimap, setMinimap,
options, setOptions)`; `zoomMax = none` is an undefined `zoomMax`. -/
def zoom (scale : ℚ) (zoomMax : Option ℚ) (container : Container) (image : Image)
    (minimap : Minimap) (options : Options) : SetterCalls :=
  let width := calculateImageWidth container image.orientation image.ratio scale
  let height := calculateImageHeight container image.orientation image.ratio scale
  if scale = 1 then
    { setImage := some
        { image with
          width := width
          height := height
          scale := 1
          offsetX := 0
          offsetY := container.height / 2 - height / 2 }
      setMinimap := some
        { minimap with
          guideHeight := minimap.height
          guideWidth := minimap.width
          offsetX := 0
          offsetY := 0 }
      setOptions := some { options with draggable := some false } }
  else if scale > 1 then
    if (match zoomMax with
        | some zm => truthyNumber zoomMax && decide (scale < zm)
        | none => false) ||
        (decide (image.initialWidth > width) && decide (image.initialHeight > height)) then
      let guideWidth :=
        if container.width ≥ width then minimap.width
        else minimap.width / (width / container.width)
      let guideHeight :=
        if container.height ≥ height then minimap.height
        else minimap.height / (height / container.height)
      let deltaX := mathRound (width - image.width)
      let deltaY := mathRound (height - image.height)
      let guideDeltaX := mathRound (guideWidth - minimap.guideWidth)
      let guideDeltaY := mathRound (guideHeight - minimap.guideHeight)
      let offsetX := image.offsetX - deltaX / 2
      let offsetY := image.offsetY - deltaY / 2
      let guideOffsetX := mathRound (minimap.offsetX - guideDeltaX / 2)
      let guideOffsetY := mathRound (minimap.offsetY - guideDeltaY / 2)
      let offsetXMax := -mathAbs (mathRound (container.width - width))
      let offsetYMax := -mathAbs (mathRound (container.height - height))
      let guideOffsetXMax := mathRound (minimap.width - guideWidth)
      let guideOffsetYMax := mathRound (minimap.height - guideHeight)
      { setOptions := some { options with draggable := some true }
        setImage := some
          { image with
            width := width
            height := height
            scale := scale
            offsetX :=
              if offsetX ≥ 0 ∨ container.width > width then 0
              else if image.offsetX ≤ offsetXMax then offsetXMax
              else offsetX
            offsetY :=
              if container.height > height then container.height / 2 - height / 2
              else if offsetY ≥ 0 then 0
              else if image.offsetY < offsetYMax then offsetYMax
              else offsetY }
        setMinimap := some
          { minimap with
            guideWidth := guideWidth
            guideHeight := guideHeight
            offsetX :=
              if guideOffsetX ≤ 0 then 0
              else if minimap.offsetX < guideOffsetXMax then guideOffsetX
              else guideOffsetXMax
            offsetY :=
              if guideOffsetY ≤ 0 ∨ height < container.height then 0
              else if minimap.offsetY < guideOffsetYMax then guideOffsetY
              else guideOffsetYMax } }
    else { setImage := none, setMinimap := none, setOptions := none }
  else { setImage := none, setMinimap := none, setOptions := none }

/-- The prop `minimapBehavior`. -/
inductive MinimapBehavior where
  | hide
  | show
  | showOnPan
  deriving DecidableEq, Repr

/-- The initial `options` state of ImageHotspots (also what the effect on a prop change
sets): `hideMinimap: minimapBehavior !== 'show'`. -/
def initialOptions (hideZoomControlsProp hideHotspotsProp : Bool)
    (minimapBehavior : MinimapBehavior) : Options :=
  { hideZoomControls := hideZoomControlsProp
    hideHotspots := hideHotspotsProp
    hideMinimap := decide (minimapBehavior ≠ .show)
    resizable := none
    draggable := none }

/-- The state `image`, `minimap`, `options` of the ImageHotspots component. -/
structure HotspotsState where
  image : Image
  minimap : Minimap
  options : Options
  deriving DecidableEq

/-- A state after the setter calls of a handler: a setter that is not called leaves its
part of the state as it is. -/
def applySetters (s : HotspotsState) (c : SetterCalls) : HotspotsState :=
  { image := c.setImage.getD s.image
    minimap := c.setMinimap.getD s.minimap
    options := c.setOptions.getD s.options }

/-- The handlers of ImageHotspots that write `options`: the image's `onLoad` and the calls
of `zoom` (mount effect, zoom in, zoom out, zoom to fit). -/
inductive HotspotsEvent where
  | imageLoad (offsetWidth offsetHeight : ℚ) (container : Container)
  | zoomTo (scale : ℚ) (zoomMax : Option ℚ) (container : Container)

/-- One handler run on the current state. -/
def handleEvent (s : HotspotsState) : HotspotsEvent → HotspotsState
  | .imageLoad ow oh container =>
    applySetters s (onImageLoad ow oh container s.image s.minimap s.options)
  | .zoomTo scale zoomMax container =>
    applySetters s (zoom scale zoomMax container s.image s.minimap s.options)

/-- The state after a sequence of handler runs. -/
def runEvents (s : HotspotsState) (events : List HotspotsEvent) : HotspotsState :=
  events.foldl handleEvent s

/-- The `hideMinimap` prop that the render of ImageHotspots hands to ImageControls:
`none` when ImageControls is not rendered (`!hideZoomControls && ...`), otherwise
`minimapBehavior === 'showOnPan' ? !dragging || hideMinimapProp : hideMinimap`
as a truth value. -/
def imageControlsHideMinimap (minimapBehavior : MinimapBehavior) (hideMinimapProp : Bool)
    (dragging : Bool) (options : Options) : Option Bool :=
  if options.hideZoomControls then none
  else
    some (if minimapBehavior = .showOnPan then !dragging || hideMinimapProp
      else options.hideMinimap)

/-- The options keep "a hidden minimap comes with hidden zoom controls". -/
def minimapHiddenWithControls (options : Options) : Prop :=
  options.hideMinimap = true → options.hideZoomControls = true

/-! ## `hexToRgb` -/

/-- The argument of `hexToRgb`: a string, `null` or `undefined`. -/
inductive HexColorArg where
  | str (s : String)
  | null
  | undefined
  deriving DecidableEq, Repr

/-- The string that `RegExp.prototype.exec` makes of its argument. -/
def HexColorArg.toJsString : HexColorArg → String
  | .str s => s
  | .null => "null"
  | .undefined => "undefined"

/-- The character class `[a-f\d]` under the flag `i`. -/
def matchesHexClass (c : Char) : Bool :=
  ('a' ≤ c && c ≤ 'f') || ('A' ≤ c && c ≤ 'F') || ('0' ≤ c && c ≤ '9')

/-- The call `/^#?([a-f\d]{2})([a-f\d]{2})([a-f\d]{2})$/i.exec(hexColor)`: the three captured
groups, or `none` for the result `null`. -/
def hexColorExec (hexColor : String) : Option (List Char × List Char × List Char) :=
  let body :=
    match hexColor.toList with
    | '#' :: rest => rest
    | cs => cs
  match body with
  | [c1, c2, c3, c4, c5, c6] =>
    if matchesHexClass c1 && matchesHexClass c2 && matchesHexClass c3 &&
        matchesHexClass c4 && matchesHexClass c5 && matchesHexClass c6 then
      some ([c1, c2], [c3, c4], [c5, c6])
    else none
  | _ => none

/-- The value of a digit of radix 16 for the builtin `parseInt`. -/
def radix16Digit (c : Char) : Option Nat :=
  if '0' ≤ c && c ≤ '9' then some (c.toNat - '0'.toNat)
  else if 'a' ≤ c && c ≤ 'f' then some (c.toNat - 'a'.toNat + 10)
  else if 'A' ≤ c && c ≤ 'F' then some (c.toNat - 'A'.toNat + 10)
  else none

/-- The digits loop of `parseInt`: the value of the longest prefix of digits, `acc` being the
value read so far. -/
def parseDigits16 (acc : Nat) : List Char → Nat
  | [] => acc
  | c :: cs =>
    match radix16Digit c with
    | some d => parseDigits16 (acc * 16 + d) cs
    | none => acc

/-- The builtin `parseInt (s, 16)` on a string without leading blanks, sign or `0x` prefix;
`none` is `NaN` (no leading digit). -/
def parseInt16 : List Char → Option Nat
  | [] => none
  | c :: cs =>
    match radix16Digit c with
    | some d => some (parseDigits16 d cs)
    | none => none

/-- The object `{ r, g, b }`; a component is a number or `NaN` (`none`). -/
structure Rgb where
  r : Option Nat
  g : Option Nat
  b : Option Nat
  deriving DecidableEq, Repr

/-- The function `hexToRgb (hexColor)`. Reading `regexResult[1]` of a `null` result throws a
TypeError, which the `catch` swallows: `rgbColors` stays `undefined` and the default is
returned. -/
def hexToRgb (hexColor : HexColorArg) : Rgb :=
  let regexResult := hexColorExec hexColor.toJsString
  let rgbColors : Option Rgb :=
    match regexResult with
    | none => none
    | some (g1, g2, g3) => some { r := parseInt16 g1, g := parseInt16 g2, b := parseInt16 g3 }
  rgbColors.getD { r := some 200, g := some 200, b := some 200 }

/-- The characters that are hexadecimal digits, upper or lower case. -/
def hexDigits : List Char := "0123456789abcdefABCDEF".toList

/-- The base-16 value of a hexadecimal digit: its place among `0123456789abcdef`. -/
def hexDigitValue (c : Char) : Nat := "0123456789abcdef".toList.indexOf c.toLower

/-- A string made of an optional leading `#` followed by exactly six hexadecimal digits. -/
def IsHexColor (s : String) : Prop :=
  ∃ body : List Char,
    (s.toList = body ∨ s.toList = '#' :: body) ∧ body.length = 6 ∧ ∀ c ∈ body, c ∈ hexDigits

/-! ## `generateCsv` -/

/-- A number that is an integer in the range of `Number.isSafeInteger`: the text of such a
number is its decimal digits. (From `1e21` on a number is printed with an exponent, and above
`Number.MAX_SAFE_INTEGER` not every integer is a number.) -/
abbrev SafeInteger := { n : Int // n.natAbs ≤ 9007199254740991 }

instance : OfNat SafeInteger 0 := ⟨⟨0, by decide⟩⟩

instance : OfNat SafeInteger 1 := ⟨⟨1, by decide⟩⟩

instance : OfNat SafeInteger 2 := ⟨⟨2, by decide⟩⟩

/-- A cell value of a table row; `object` is an object or a function, given by the text a
template literal makes of it. -/
inductive CellValue where
  | null
  | undefined
  | bool (b : Bool)
  | num (n : SafeInteger)
  | str (s : String)
  | object (text : String)
  deriving DecidableEq, Repr

/-- The string a template literal makes of a value. -/
def CellValue.toJsString : CellValue → String
  | .null => "null"
  | .undefined => "undefined"
  | .bool b => if b then "true" else "false"
  | .num n => toString n.val
  | .str s => s
  | .object text => text

/-- The lodash function `isNil`. -/
def isNil : CellValue → Bool
  | .null => true
  | .undefined => true
  | _ => false

/-- A row of table data: the own properties of the plain object `item.values`, in the order
of `Object.keys`. -/
structure DataRow where
  values : List (String × CellValue)
  deriving DecidableEq, Repr

/-- The text of a builtin function in a template literal, as V8 prints it. -/
def nativeFunctionText (name : String) : String :=
  "function " ++ name ++ "() \x7b [native code] \x7d"

/-- The members of the builtin `Object.prototype`, which a plain object inherits; the
accessor `__proto__` yields `Object.prototype` itself. -/
def objectPrototype : List (String × CellValue) :=
  [("constructor", .object (nativeFunctionText "Object")),
    ("__defineGetter__", .object (nativeFunctionText "__defineGetter__")),
    ("__defineSetter__", .object (nativeFunctionText "__defineSetter__")),
    ("hasOwnProperty", .object (nativeFunctionText "hasOwnProperty")),
    ("__lookupGetter__", .object (nativeFunctionText "__lookupGetter__")),
    ("__lookupSetter__", .object (nativeFunctionText "__lookupSetter__")),
    ("isPrototypeOf", .object (nativeFunctionText "isPrototypeOf")),
    ("propertyIsEnumerable", .object (nativeFunctionText "propertyIsEnumerable")),
    ("toString", .object (nativeFunctionText "toString")),
    ("valueOf", .object (nativeFunctionText "valueOf")),
    ("__proto__", .object "[object Object]"),
    ("toLocaleString", .object (nativeFunctionText "toLocaleString"))]

/-- The property read `values[key]` of a plain object: the own property when there is one,
else the member of `Object.prototype` of that name, else `undefined`. -/
def readValue (values : List (String × CellValue)) (key : String) : CellValue :=
  match values.lookup key with
  | some v => v
  | none =>
    match objectPrototype.lookup key with
    | some inherited => inherited
    | none => .undefined

/-- The call `Object.keys (item.values)`. -/
def objectKeys (item : DataRow) : List String := item.values.map Prod.fst

/-- The expression `[...new Set(columnHeaders)]`: a key is added unless it is already in. -/
def uniqueInOrder (keys : List String) : List String :=
  keys.foldl (fun seen k => if k ∈ seen then seen else seen ++ [k]) []

/-- The builtin `Array.prototype.join`. -/
def jsJoin (sep : String) : List String → String
  | [] => ""
  | [a] => a
  | a :: b :: rest => a ++ sep ++ jsJoin sep (b :: rest)

/-- The headers that the first loop of `generateCsv` collects, before they are made unique. -/
def allColumnHeaders (data : List DataRow) : List String :=
  data.foldl (fun columnHeaders item => columnHeaders ++ objectKeys item) []

/-- The variable `columnHeaders` of `generateCsv` after `[...new Set(columnHeaders)]`. -/
def csvColumnHeaders (data : List DataRow) : List String :=
  uniqueInOrder (allColumnHeaders data)

/-- The text `generateCsv` writes for one cell:
`!isNil(item.values[arrayHeader]) ? item.values[arrayHeader] : ''` in a template literal. -/
def csvCell (item : DataRow) (arrayHeader : String) : String :=
  if !isNil (readValue item.values arrayHeader) then
    (readValue item.values arrayHeader).toJsString
  else ""

/-- The function `generateCsv (data)`. -/
def generateCsv (data : List DataRow) : String :=
  let csv := ""
  let columnHeaders := csvColumnHeaders data
  let csv := csv ++ (jsJoin "," columnHeaders ++ "\n")
  let csv := data.foldl (fun csv item =>
    let csv := columnHeaders.foldl (fun csv arrayHeader =>
      csv ++ (csvCell item arrayHeader ++ ",")) csv
    csv ++ "\n") csv
  csv

/-- The text of the line of a row: each cell, in header order, followed by a comma. -/
def csvRowText (columnHeaders : List String) (item : DataRow) : String :=
  String.join (columnHeaders.map fun arrayHeader => csvCell item arrayHeader ++ ",")

/-- Lines written one after the other, each ended by a newline. -/
def unlines : List String → String
  | [] => ""
  | l :: ls => l ++ "\n" ++ unlines ls

/-- The number of newline characters of a string. -/
def newlineCount (s : String) : Nat := s.toList.count '\n'

/-- A string free of newline characters. -/
def NoNewline (s : String) : Prop := '\n' ∉ s.toList

instance (s : String) : Decidable (NoNewline s) :=
  inferInstanceAs (Decidable ('\n' ∉ s.toList))

/-! ## `sortTableData` and `getSortedData`

Arrays are mutable in JavaScript, so `getSortedData` runs on a heap of arrays and an array
is named by a reference. -/

/-- The builtins that `sortTableData` relies on. `dayjsValue` is the number a `dayjs` object
compares as (`none` for an invalid date), `toNumber` is `Number (v)` (`none` for `NaN`) and
`localeCompare a b` is `a.localeCompare (b)`. -/
structure SortBuiltins where
  dayjsValue : CellValue → Option Int
  toNumber : CellValue → Option ℚ
  localeCompare : String → CellValue → Int

/-- The comparison `p < q` of two numbers, false when one of them is `NaN`. -/
def numLt {α : Type} [LT α] [DecidableRel (fun (x y : α) => x < y)] : Option α → Option α → Bool
  | some p, some q => decide (p < q)
  | _, _ => false

/-- The test `!Number (a)`: true for `NaN` and for `0`. -/
def notNumber (n : Option ℚ) : Bool :=
  match n with
  | none => true
  | some q => decide (q = 0)

/-- The comparator `sortTableData (columnId, isTimestampColumn)` applied to `a` and `b`. -/
def sortTableData (env : SortBuiltins) (isTimestampColumn : Bool) (a b : CellValue) : Int :=
  if isNil a then 1
  else if isNil b then -1
  else if isTimestampColumn && numLt (env.dayjsValue a) (env.dayjsValue b) then -1
  else if isTimestampColumn && numLt (env.dayjsValue b) (env.dayjsValue a) then 1
  else
    match a with
    | .str s =>
      if notNumber (env.toNumber a) then env.localeCompare s b
      else if numLt (env.toNumber a) (env.toNumber b) then -1
      else if numLt (env.toNumber b) (env.toNumber a) then 1
      else 0
    | _ =>
      if numLt (env.toNumber a) (env.toNumber b) then -1
      else if numLt (env.toNumber b) (env.toNumber a) then 1
      else 0

/-- The comparator that `firstBy (row => row.values[columnId], { cmp, direction })` of the
library thenby builds: `cmp` on the selected values, negated for the direction `'desc'`. -/
def firstBy (select : DataRow → CellValue) (cmp : CellValue → CellValue → Int)
    (descending : Bool) (r1 r2 : DataRow) : Int :=
  if descending then -(cmp (select r1) (select r2)) else cmp (select r1) (select r2)

/-- The builtin `Array.prototype.sort` with a comparator, on the elements of the array. The
language leaves the algorithm to the engine; a stable insertion sort stands for it. -/
def arraySort (cmp : DataRow → DataRow → Int) (rows : List DataRow) : List DataRow :=
  rows.insertionSort (fun r1 r2 => cmp r1 r2 ≤ 0)

/-- A reference to an array on the heap. -/
abbrev ArrayRef := Nat

/-- The arrays of rows that exist, by reference. -/
structure Heap where
  arrays : List (List DataRow)
  deriving DecidableEq, Repr

/-- The elements of the array behind a reference. -/
def Heap.read (heap : Heap) (ref : ArrayRef) : Option (List DataRow) := heap.arrays[ref]?

/-- A new array on the heap, and its reference. -/
def Heap.alloc (heap : Heap) (rows : List DataRow) : Heap × ArrayRef :=
  ({ arrays := heap.arrays ++ [rows] }, heap.arrays.length)

/-- The array behind a reference overwritten in place. -/
def Heap.write (heap : Heap) (ref : ArrayRef) (rows : List DataRow) : Heap :=
  { arrays := heap.arrays.set ref rows }

/-- The function `getSortedData (inputData, columnId, direction, isTimestampColumn)`:
`inputData.map ((i) => i)` makes a new array, `sort` reorders that array in place and
returns it. The result is the heap after the call and the returned reference; `none` only
for a reference to no array. -/
def getSortedData (env : SortBuiltins) (heap : Heap) (inputData : ArrayRef) (columnId : String)
    (direction : String) (isTimestampColumn : Bool) : Option (Heap × ArrayRef) :=
  match heap.read inputData with
  | none => none
  | some rows =>
    let (heap, sortedData) := heap.alloc (rows.map fun i => i)
    let cmp := firstBy (fun row => readValue row.values columnId)
      (sortTableData env isTimestampColumn) (if direction = "ASC" then false else true)
    match heap.read sortedData with
    | none => none
    | some elems => some (heap.write sortedData (arraySort cmp elems), sortedData)

/-! ## `tableTranslateWithId` -/

/-- The labels of `i18n` that `tableTranslateWithId` reads. -/
structure TableI18n where
  batchCancel : String
  itemsSelected : String
  itemSelected : String
  searchLabel : String
  searchPlaceholder : String
  filterAscending : String
  filterDescending : String
  filterNone : String
  deriving DecidableEq, Repr

/-- The fields of `state` that `tableTranslateWithId` reads. -/
structure TranslateState where
  totalSelected : Nat
  isSortHeader : Bool
  sortDirection : String
  deriving DecidableEq, Repr

/-- The constant `sortStates.NONE` of carbon-components-react. -/
def sortStatesNONE : String := "NONE"

/-- The constant `sortStates.ASC` of carbon-components-react. -/
def sortStatesASC : String := "ASC"

/-- The function `tableTranslateWithId (i18n, id, state)`. -/
def tableTranslateWithId (i18n : TableI18n) (id : String) (state : TranslateState) : String :=
  match id with
  | "carbon.table.batch.cancel" => i18n.batchCancel
  | "carbon.table.batch.items.selected" =>
    toString state.totalSelected ++ " " ++ i18n.itemsSelected
  | "carbon.table.batch.item.selected" =>
    toString state.totalSelected ++ " " ++ i18n.itemSelected
  | "carbon.table.toolbar.search.label" => i18n.searchLabel
  | "carbon.table.toolbar.search.placeholder" => i18n.searchPlaceholder
  | "carbon.table.header.icon.description" =>
    if state.isSortHeader then
      if state.sortDirection = sortStatesNONE then i18n.filterAscending
      else if state.sortDirection = sortStatesASC then i18n.filterDescending
      else i18n.filterNone
    else i18n.filterAscending
  | _ => ""

/-- The ids that the `switch` of `tableTranslateWithId` handles. -/
def handledTranslationIds : List String :=
  [ "carbon.table.batch.cancel",
    "carbon.table.batch.items.selected",
    "carbon.table.batch.item.selected",
    "carbon.table.toolbar.search.label",
    "carbon.table.toolbar.search.placeholder",
    "carbon.table.header.icon.description" ]

/-! ## The header row of `TableHead` -/

/-- A column of the `columns` prop, as far as the header row reads it. -/
structure TableColumn where
  id : String
  name : String
  isSortable : Bool
  align : Option String
  overflowMenuItems : Option (List String)
  width : Option String
  deriving DecidableEq, Repr

/-- An entry `{ columnId, isHidden }` of `tableState.ordering`. -/
structure OrderingEntry where
  columnId : String
  isHidden : Bool
  deriving DecidableEq, Repr

/-- An entry `{ columnId, direction }` of `tableState.sort`. -/
structure SortEntry where
  columnId : String
  direction : String
  deriving DecidableEq, Repr

/-- The prop `tableState.sort`: one sort object, an array of them, or nothing. -/
inductive SortProp where
  | single (s : SortEntry)
  | multi (l : List SortEntry)
  | missing
  deriving DecidableEq, Repr

/-- The option `hasRowSelection`: `'multi'`, `'single'` or `false`. -/
inductive RowSelection where
  | multi
  | single
  | off
  deriving DecidableEq, Repr

/-- The options of `TableHead` that the header row reads. -/
structure TableHeadOptions where
  hasRowExpansion : Bool
  hasRowNesting : Bool
  hasRowSelection : RowSelection
  hasRowActions : Bool
  hasResize : Bool
  hasMultiSort : Bool
  deriving DecidableEq, Repr

/-- The `TableHeader` element of a column, with the children that depend on the props. -/
structure ColumnHeader where
  columnId : String
  isSortHeader : Bool
  sortDirection : String
  sortOrder : Int
  align : String
  hasOverflowMenu : Bool
  hasColumnResize : Bool
  deriving DecidableEq, Repr

/-- A child element of the `TableRow` of the header. -/
inductive HeadElement where
  | tableExpandHeader
  | selectionHeader
  | columnHeader (h : ColumnHeader)
  | expanderHeader
  | rowActionsHeader
  deriving DecidableEq, Repr

/-- The element is a `TableHeader` (all but `TableExpandHeader` are). -/
def HeadElement.isTableHeader : HeadElement → Bool
  | .tableExpandHeader => false
  | _ => true

/-- The element is the `TableHeader` of a column with a `ColumnResize` handle in it. -/
def HeadElement.hasColumnResize : HeadElement → Bool
  | .columnHeader h => h.hasColumnResize
  | _ => false

/-- The constant `lastVisibleColumn`, `ordering.filter ((col) => !col.isHidden).slice (-1)[0]`,
for an array `ordering` whose entries are distinct objects. An entry of `ordering` is an
object and `item !== lastVisibleColumn` compares identities, so the entry is named by its
place in `ordering`; `none` is `undefined`. For an array in which an object may occur more
than once see `lastVisibleObject`. -/
def lastVisibleColumn (ordering : List OrderingEntry) : Option Nat :=
  ((ordering.enum.filter fun p => !p.2.isHidden).getLast?).map Prod.fst

/-- The builtin `findIndex` on `sort` with the callback `(c) => c.columnId ===
matchingColumnMeta.id`: the callback reads `.id` of `matchingColumnMeta` and throws a
TypeError when that is `undefined`, which happens at the first element. -/
def sortFindIndex (sort : List SortEntry) (matchingColumnMeta : Option TableColumn) :
    Except JsError Int :=
  match sort, matchingColumnMeta with
  | [], _ => .ok (-1)
  | _ :: _, none => .error .typeError
  | l, some col =>
    .ok (match l.findIdx? (fun c => c.columnId = col.id) with
      | some k => (k : Int)
      | none => -1)

/-- The callback of `ordering.map ((item, columnIndex) => ...)` in the render of `TableHead`:
the `TableHeader` of the column, or `null`. The number `columnIndex` names the object `item`
in the test `item !== lastVisibleColumn`. -/
def renderOrderingItem (options : TableHeadOptions) (columns : List TableColumn)
    (sort : SortProp) (showExpanderColumn : Bool) (lastVisible : Option Nat)
    (item : OrderingEntry) (columnIndex : Nat) : Except JsError (Option HeadElement) :=
  let matchingColumnMeta := columns.find? (fun column => column.id = item.columnId)
  let hasSingleSort : Bool :=
    match matchingColumnMeta, sort with
    | some col, .single s => s.columnId = col.id
    | _, _ => false
  let multiSortColumn : Option SortEntry :=
    match matchingColumnMeta, sort with
    | some col, .multi l => if options.hasMultiSort then l.find? (fun c => c.columnId = col.id)
      else none
    | _, _ => none
  let hasSort := hasSingleSort || options.hasMultiSort
  let sortOrderResult : Except JsError Int :=
    match sort with
    | .multi l =>
      if options.hasMultiSort then
        match sortFindIndex l matchingColumnMeta with
        | .ok k => .ok (k + 1)
        | .error e => .error e
      else .ok (-1)
    | _ => .ok (-1)
  match sortOrderResult with
  | .error e => .error e
  | .ok sortOrder =>
    let sortDirection : String :=
      match sort with
      | .single s =>
        if hasSingleSort then s.direction else "NONE"
      | _ =>
        match multiSortColumn with
        | some c => if options.hasMultiSort && c.direction ≠ "" then c.direction else "NONE"
        | none => "NONE"
    match matchingColumnMeta with
    | none => .ok none
    | some col =>
      if item.isHidden then .ok none
      else
        let align := match col.align with
          | some a => if a ≠ "" then a else "start"
          | none => "start"
        let hasOverflow := col.overflowMenuItems.isSome
        .ok (some (.columnHeader
          { columnId := col.id
            isSortHeader := hasSort
            sortDirection := sortDirection
            sortOrder := sortOrder
            align := align
            hasOverflowMenu := hasOverflow || (options.hasMultiSort && col.isSortable)
            hasColumnResize :=
              options.hasResize && (decide (some columnIndex ≠ lastVisible) || showExpanderColumn) }))

/-- The call `ordering.map ((item, columnIndex) => ...)`, entries taken from `columnIndex` on. -/
def renderOrdering (options : TableHeadOptions) (columns : List TableColumn)
    (sort : SortProp) (showExpanderColumn : Bool) (lastVisible : Option Nat) :
    List OrderingEntry → Nat → Except JsError (List (Option HeadElement))
  | [], _ => .ok []
  | item :: rest, columnIndex =>
    match renderOrderingItem options columns sort showExpanderColumn lastVisible item
        columnIndex with
    | .error e => .error e
    | .ok el =>
      match renderOrdering options columns sort showExpanderColumn lastVisible rest
          (columnIndex + 1) with
      | .error e => .error e
      | .ok els => .ok (el :: els)

/-- The children of the `TableRow` in what the render function of `TableHead` returns, `null`
children left out, for an array `ordering` of distinct objects; an error when the render
throws. The effects that run once the row is rendered are in `mountTableHead`. -/
def tableHeadRow (options : TableHeadOptions) (columns : List TableColumn)
    (sort : SortProp) (ordering : List OrderingEntry) (showExpanderColumn : Bool) :
    Except JsError (List HeadElement) :=
  match renderOrdering options columns sort showExpanderColumn (lastVisibleColumn ordering)
      ordering 0 with
  | .error e => .error e
  | .ok els =>
    .ok ((if options.hasRowExpansion || options.hasRowNesting then [HeadElement.tableExpandHeader]
        else []) ++
      (if options.hasRowSelection = .multi then [HeadElement.selectionHeader] else []) ++
      els.filterMap id ++
      (if showExpanderColumn then [HeadElement.expanderHeader] else []) ++
      (if options.hasRowActions then [HeadElement.rowActionsHeader] else []))

/-- The number of `TableHeader` elements among the children of the header row. -/
def countTableHeaders (els : List HeadElement) : Nat :=
  (els.filter HeadElement.isTableHeader).length

/-- The number of ordering entries that are not hidden and whose `columnId` matches a
column. -/
def visibleMatchedCount (columns : List TableColumn) (ordering : List OrderingEntry) : Nat :=
  (ordering.filter fun item =>
    !item.isHidden && columns.any fun column => column.id = item.columnId).length

/-! ## The order of the entries of `getLayout` -/

/-- The cursor `(x1, y1)` is at or before the position `(x2, y2)` in row-major order. -/
def cursorAtOrBefore (x1 y1 x2 y2 : Nat) : Prop :=
  y1 < y2 ∨ (y1 = y2 ∧ x1 ≤ x2)

/-- The entry `b` lies at or after the `(y, x + w)` of the entry `a` in row-major order. -/
def placedAfter (a b : LayoutItem) : Prop :=
  a.y < b.y ∨ (a.y = b.y ∧ a.x + a.w ≤ b.x)

/-! ## The resize handles of the header row of `TableHead` -/

/-- The ordering entry rendered by `renderOrderingItem` as a `TableHeader`: it is not hidden
and its `columnId` matches a column. -/
def isRenderedEntry (columns : List TableColumn) (item : OrderingEntry) : Bool :=
  !item.isHidden && columns.any fun column => column.id = item.columnId

/-- The entry at place `k` is the last entry of `ordering` that is not hidden. -/
def IsLastVisible (ordering : List OrderingEntry) (k : Nat) : Prop :=
  ∃ item, ordering[k]? = some item ∧ item.isHidden = false ∧
    ∀ j item', k < j → ordering[j]? = some item' → item'.isHidden = true

/-- The number of `ColumnResize` handles among the children of the header row. -/
def countResizeHandles (els : List HeadElement) : Nat :=
  (els.filter HeadElement.hasColumnResize).length

/-- The number of rendered entries, from place `columnIndex` on, that are the entry
`lastVisible`: the handles left out for being on the last visible column. -/
def handlesLeftOut (columns : List TableColumn) (lastVisible : Option Nat) :
    List OrderingEntry → Nat → Nat
  | [], _ => 0
  | item :: rest, columnIndex =>
    (if lastVisible = some columnIndex ∧ isRenderedEntry columns item = true then 1 else 0) +
      handlesLeftOut columns lastVisible rest (columnIndex + 1)

/-! ## `updateColumnWidths` of `TableHead` -/

/-- An entry `{ id, width }` of the widths map; the width is a whole number of pixels, or
`undefined` (`none`). -/
structure ColumnWidth where
  id : String
  width : Option Int
  deriving DecidableEq, Repr

/-- The widths map `newColumnWidths`, an object keyed by column id. -/
abbrev WidthsMap := List (String × ColumnWidth)

/-- What `updateColumnWidths` hands over: the map given to `setCurrentColumnWidths` and the
list given to `onColumnResize` (`none` when there is no such callback). -/
structure WidthsUpdate where
  currentColumnWidths : WidthsMap
  reported : Option (List TableColumn)
  deriving DecidableEq, Repr

/-- The callback of `columns.map` in `updateColumnWidths`: the column with its new width.
Reading `.width` of a missing `newColumnWidths[col.id]` throws a TypeError. -/
def updateColumnWidth (newColumnWidths : WidthsMap) (col : TableColumn) :
    Except JsError TableColumn :=
  match newColumnWidths.lookup col.id with
  | none => .error .typeError
  | some entry =>
    .ok { col with
      width :=
        match entry.width with
        | some n => some (toString n ++ "px")
        | none => col.width }

/-- The call `columns.map ((col) => ...)` of `updateColumnWidths`. -/
def updatedColumns (newColumnWidths : WidthsMap) :
    List TableColumn → Except JsError (List TableColumn)
  | [] => .ok []
  | col :: rest =>
    match updateColumnWidth newColumnWidths col with
    | .error e => .error e
    | .ok c =>
      match updatedColumns newColumnWidths rest with
      | .error e => .error e
      | .ok cs => .ok (c :: cs)

/-- The function `updateColumnWidths (newColumnWidths)` of `TableHead`;
`hasOnColumnResize` tells whether the action `onColumnResize` is given. -/
def updateColumnWidths (columns : List TableColumn) (hasOnColumnResize : Bool)
    (newColumnWidths : WidthsMap) : Except JsError WidthsUpdate :=
  match updatedColumns newColumnWidths columns with
  | .error e => .error e
  | .ok cols =>
    .ok { currentColumnWidths := newColumnWidths
          reported := if hasOnColumnResize then some cols else none }

/-! ## The mount of `TableHead`

The entries of `ordering` are objects, and the render compares them by identity. -/

/-- A reference to an object: two references are equal when they name the same object. -/
abbrev ObjectRef := Nat

/-- An element of the array `ordering`: the reference of the entry object and the properties
`{ columnId, isHidden }` read from it. -/
structure OrderingObject where
  ref : ObjectRef
  entry : OrderingEntry
  deriving DecidableEq, Repr

/-- The constant `lastVisibleColumn`, `ordering.filter ((col) => !col.isHidden).slice (-1)[0]`:
the object that is the last element of the filtered array; `none` is `undefined`. -/
def lastVisibleObject (ordering : List OrderingObject) : Option ObjectRef :=
  ((ordering.filter fun col => !col.entry.isHidden).getLast?).map fun col => col.ref

/-- The callback of `ordering.map ((item, columnIndex) => ...)` on an entry object: the
test `item !== lastVisibleColumn` compares the reference of `item` with that of
`lastVisibleColumn`. -/
def renderOrderingObject (options : TableHeadOptions) (columns : List TableColumn)
    (sort : SortProp) (showExpanderColumn : Bool) (lastVisible : Option ObjectRef)
    (item : OrderingObject) : Except JsError (Option HeadElement) :=
  renderOrderingItem options columns sort showExpanderColumn lastVisible item.entry item.ref

/-- The call `ordering.map ((item, columnIndex) => ...)` on an array of entry objects. -/
def renderOrderingObjects (options : TableHeadOptions) (columns : List TableColumn)
    (sort : SortProp) (showExpanderColumn : Bool) (lastVisible : Option ObjectRef) :
    List OrderingObject → Except JsError (List (Option HeadElement))
  | [] => .ok []
  | item :: rest =>
    match renderOrderingObject options columns sort showExpanderColumn lastVisible item with
    | .error e => .error e
    | .ok el =>
      match renderOrderingObjects options columns sort showExpanderColumn lastVisible rest with
      | .error e => .error e
      | .ok els => .ok (el :: els)

/-- The children of the `TableRow` in what the render function of `TableHead` returns, `null`
children left out; an error when the render throws. -/
def tableHeadRowObjects (options : TableHeadOptions) (columns : List TableColumn)
    (sort : SortProp) (ordering : List OrderingObject) (showExpanderColumn : Bool) :
    Except JsError (List HeadElement) :=
  match renderOrderingObjects options columns sort showExpanderColumn
      (lastVisibleObject ordering) ordering with
  | .error e => .error e
  | .ok els =>
    .ok ((if options.hasRowExpansion || options.hasRowNesting then [HeadElement.tableExpandHeader]
        else []) ++
      (if options.hasRowSelection = .multi then [HeadElement.selectionHeader] else []) ++
      els.filterMap id ++
      (if showExpanderColumn then [HeadElement.expanderHeader] else []) ++
      (if options.hasRowActions then [HeadElement.rowActionsHeader] else []))

/-- An array of distinct entry objects, the object at place `k` having the reference
`n + k`. -/
def distinctObjectsFrom (n : Nat) (ordering : List OrderingEntry) : List OrderingObject :=
  (ordering.enumFrom n).map fun p => { ref := p.1, entry := p.2 }

/-- An array of distinct entry objects, each named by its place. -/
def distinctObjects (ordering : List OrderingEntry) : List OrderingObject :=
  distinctObjectsFrom 0 ordering

/-- The element is the `TableHeader` of the column `columnId`. -/
def HeadElement.isColumn (columnId : String) : HeadElement → Bool
  | .columnHeader h => h.columnId = columnId
  | _ => false

/-- The function `measureColumnWidths`: for every entry of `ordering` that is not hidden the
entry `{ id, width }` with `width: ref.current && ref.current.getBoundingClientRect ().width`.
The ref `columnRef[col.columnId]` is attached to the `TableHeader` of that column when the
row has one, and `boundingWidth` is the width the browser reports for it; otherwise
`ref.current` is `null` (`none`). -/
def measureColumnWidths (row : List HeadElement) (boundingWidth : String → Int)
    (ordering : List OrderingObject) : List ColumnWidth :=
  (ordering.filter fun col => !col.entry.isHidden).map fun col =>
    { id := col.entry.columnId
      width :=
        if row.any (HeadElement.isColumn col.entry.columnId) then
          some (boundingWidth col.entry.columnId)
        else none }

/-- The functions of the module `./columnWidthUtilityFunctions` that the layout effect of
`TableHead` calls. The module is not among the sources, so the two functions are taken as
they come; a call may throw. -/
structure WidthUtilities where
  adjustLastColumnWidth :
    List OrderingObject → List TableColumn → List ColumnWidth → Except JsError (List ColumnWidth)
  createNewWidthsMap :
    List OrderingObject → WidthsMap → List ColumnWidth → Except JsError WidthsMap

/-- The first render of `TableHead` and the layout effect that follows it. The state
`currentColumnWidths` is still empty, so the effect calls `measureAndAdjustColumns`,
which under `hasResize && columns.length` measures the columns and hands the new widths map
to `setCurrentColumnWidths`. The result is the row rendered and the map set (`none` when
the setter is not called); an error when the render or the effect throws. The children of
the row kept here do not read `currentColumnWidths`, so the render that follows the state
change returns the same row. The other effect of the component does nothing while
`currentColumnWidths` is empty. -/
def mountTableHead (utils : WidthUtilities) (boundingWidth : String → Int)
    (options : TableHeadOptions) (columns : List TableColumn) (sort : SortProp)
    (ordering : List OrderingObject) (showExpanderColumn : Bool) :
    Except JsError (List HeadElement × Option WidthsMap) :=
  match tableHeadRowObjects options columns sort ordering showExpanderColumn with
  | .error e => .error e
  | .ok row =>
    if options.hasResize && columns.length != 0 then
      let measuredWidths := measureColumnWidths row boundingWidth ordering
      match utils.adjustLastColumnWidth ordering columns measuredWidths with
      | .error e => .error e
      | .ok adjustedWidths =>
        match utils.createNewWidthsMap ordering [] adjustedWidths with
        | .error e => .error e
        | .ok newWidthsMap => .ok (row, some newWidthsMap)
    else .ok (row, none)

/-! ## `getAccumulatedOffset` and `handleMouseUp` of ImageHotspots

Offsets and mouse coordinates are rationals. The quotient by `image.width` or `image.height`
is a `JsNumber`, which also has the values `Infinity`, `-Infinity` and `NaN`. -/

/-- An element of the page with its `offsetTop`, `offsetLeft` and `offsetParent`; `root` has
the `offsetParent` `null`. -/
inductive DomElement where
  | root (offsetTop offsetLeft : ℚ)
  | child (offsetTop offsetLeft : ℚ) (offsetParent : DomElement)
  deriving DecidableEq

/-- The property `offsetTop`. -/
def DomElement.offsetTop : DomElement → ℚ
  | .root t _ => t
  | .child t _ _ => t

/-- The property `offsetLeft`. -/
def DomElement.offsetLeft : DomElement → ℚ
  | .root _ l => l
  | .child _ l _ => l

/-- The property `offsetParent`. -/
def DomElement.offsetParent : DomElement → Option DomElement
  | .root _ _ => none
  | .child _ _ p => some p

/-- The object `{ top, left }`. -/
structure PageOffset where
  top : ℚ
  left : ℚ
  deriving DecidableEq

/-- The loop `while (ancestor) { ... }` of `getAccumulatedOffset`, entered with the element
`ancestor`. -/
def addAncestorOffsets (offset : PageOffset) : DomElement → PageOffset
  | .root t l => { top := offset.top + t, left := offset.left + l }
  | .child t l p => addAncestorOffsets { top := offset.top + t, left := offset.left + l } p

/-- The function `getAccumulatedOffset (imageElement)`. -/
def getAccumulatedOffset (imageElement : DomElement) : PageOffset :=
  let offset : PageOffset :=
    { top := imageElement.offsetTop, left := imageElement.offsetLeft }
  match imageElement.offsetParent with
  | none => offset
  | some ancestor => addAncestorOffsets offset ancestor

/-- The `cursor` state of ImageHotspots; a field that is not set is `none`. -/
structure Cursor where
  cursorX : Option ℚ
  cursorY : Option ℚ
  dragging : Option Bool
  dragPrepared : Option Bool
  imageMousedown : Option Bool
  deriving DecidableEq

/-- The mouse event, as far as `handleMouseUp` reads it. -/
structure MouseUpEvent where
  clientX : ℚ
  clientY : ℚ
  currentTarget : DomElement
  deriving DecidableEq

/-- A number as `handleMouseUp` computes it: a rational, `Infinity` (`infinity false`),
`-Infinity` (`infinity true`) or `NaN`. -/
inductive JsNumber where
  | finite (q : ℚ)
  | infinity (negative : Bool)
  | nan
  deriving DecidableEq

/-- The quotient `a / b` of a finite number `a` by a field `b` that may be `undefined`
(`none`): `NaN` when `b` is `undefined`; when `b` is `0`, `NaN` for `a = 0` and else the
infinity of the sign of `a`. -/
def jsDivide (a : ℚ) (b : Option ℚ) : JsNumber :=
  match b with
  | none => .nan
  | some d =>
    if d = 0 then
      if a = 0 then .nan else .infinity (decide (a < 0))
    else .finite (a / d)

/-- The product `x * k` with a finite number `k`. -/
def JsNumber.times (x : JsNumber) (k : ℚ) : JsNumber :=
  match x with
  | .finite q => .finite (q * k)
  | .infinity negative =>
    if k = 0 then .nan else .infinity (if k < 0 then !negative else negative)
  | .nan => .nan

/-- The fields of the `image` state that `handleMouseUp` reads; `none` is `undefined`, as in
the state `{}` before an image is loaded. -/
structure ImageSize where
  width : Option ℚ
  height : Option ℚ
  deriving DecidableEq

/-- The object `{ x, y }` handed to the callback. -/
structure HotspotPosition where
  x : JsNumber
  y : JsNumber
  deriving DecidableEq

/-- What `handleMouseUp` does: the updater handed to `setCursor` and the arguments of the
calls of `callback`, in order. -/
structure MouseUpEffects where
  cursorUpdate : Cursor → Cursor
  callbackCalls : List HotspotPosition

/-- The function `handleMouseUp ({ event, image, cursor, setCursor, isEditable, callback })`;
`cursor = none` is a `cursor` that is null or undefined and `hasCallback` tells whether
`callback` is given. -/
def handleMouseUp (event : MouseUpEvent) (image : ImageSize) (cursor : Option Cursor)
    (isEditable : Bool) (hasCallback : Bool) : MouseUpEffects :=
  { cursorUpdate := fun newCursor =>
      { newCursor with dragPrepared := some false, imageMousedown := some false }
    callbackCalls :=
      if isEditable && (match cursor with
          | some c => c.imageMousedown = some true
          | none => false) then
        let accumelatedOffset := getAccumulatedOffset event.currentTarget
        let relativePositionX := event.clientX - accumelatedOffset.left
        let relativePositionY := event.clientY - accumelatedOffset.top
        let percentagePosition : HotspotPosition :=
          { x := (jsDivide relativePositionX image.width).times 100
            y := (jsDivide relativePositionY image.height).times 100 }
        if hasCallback then [percentagePosition] else []
      else [] }

/-- The element and its chain of `offsetParent`s, the element first. -/
def DomElement.offsetChain : DomElement → List DomElement
  | .root t l => [.root t l]
  | .child t l p => .child t l p :: p.offsetChain

/-! # Theorems -/

/-! ## Theorems on `getLayout` -/

theorem canFitColumn_free (grid : Grid) (i : Nat) :
    ∀ (n j : Nat), canFitColumn grid i j n = some true →
      ∀ k, j ≤ k → k < j + n → cellFree grid i k := by
  intro n
  induction n with
  | zero => intro j _ k h1 h2; omega
  | succ n ih =>
    intro j hfit k h1 h2
    unfold canFitColumn at hfit
    split at hfit
    · simp at hfit
    · split at hfit
      · simp at hfit
      · rename_i col hcol
        split at hfit
        · simp at hfit
        · split at hfit
          · simp at hfit
          · rename_i hcell
            simp only [ne_eq, not_not] at hcell
            by_cases hk : k = j
            · subst hk; exact ⟨col, hcol, hcell⟩
            · exact ih (j + 1) hfit k (by omega) (by omega)

theorem canFitFrom_free (grid : Grid) (y h : Nat) :
    ∀ (m i : Nat), canFitFrom grid y h i m = some true →
      ∀ a k, i ≤ a → a < i + m → y ≤ k → k < y + h → cellFree grid a k := by
  intro m
  induction m with
  | zero => intro i _ a k h1 h2; omega
  | succ m ih =>
    intro i hfit a k h1 h2 h3 h4
    unfold canFitFrom at hfit
    split at hfit
    · rename_i hcol
      by_cases ha : a = i
      · subst ha; exact canFitColumn_free grid a h y hcol k h3 h4
      · exact ih (i + 1) hfit a k (by omega) (by omega) h3 h4
    · rename_i r hr
      exact absurd hfit (hr)

theorem assignCell_free (col : GridColumn) (j num k : Nat) (hnum : num ≠ 0)
    (h : (assignCell col j num)[k]? = some (some 0)) :
    k ≠ j ∧ col[k]? = some (some 0) := by
  unfold assignCell at h
  split at h
  · rename_i hj
    rw [List.getElem?_set] at h
    split at h
    · simp [hj] at h; exact absurd h hnum
    · rename_i hne; exact ⟨fun e => hne e.symm, h⟩
  · rename_i hj
    rw [List.append_assoc, List.getElem?_append] at h
    split at h
    · rename_i hk; exact ⟨by omega, h⟩
    · rename_i hk
      rw [List.getElem?_append] at h
      split at h
      · rename_i hk2
        rw [List.getElem?_replicate] at h
        split at h <;> simp at h
      · rename_i hk2
        simp only [List.length_replicate] at hk2 h
        rcases hidx : k - col.length - (j - col.length) with _ | t
        · rw [hidx] at h; simp at h; exact absurd h hnum
        · rw [hidx] at h; simp at h


theorem placeColumn_free (num : Nat) (hnum : num ≠ 0) :
    ∀ (n : Nat) (col : GridColumn) (j k : Nat),
      (placeColumn num col j n)[k]? = some (some 0) →
        ¬ (j ≤ k ∧ k < j + n) ∧ col[k]? = some (some 0) := by
  intro n
  induction n with
  | zero => intro col j k h; exact ⟨by omega, h⟩
  | succ n ih =>
    intro col j k h
    unfold placeColumn at h
    obtain ⟨h1, h2⟩ := ih _ _ _ h
    obtain ⟨h3, h4⟩ := assignCell_free col j num k hnum h2
    exact ⟨by omega, h4⟩

theorem placeFrom_free (y h num : Nat) (hnum : num ≠ 0) :
    ∀ (m : Nat) (grid grid' : Grid) (i : Nat), placeFrom y h num grid i m = .ok grid' →
      ∀ a k, cellFree grid' a k →
        cellFree grid a k ∧ ¬ (i ≤ a ∧ a < i + m ∧ y ≤ k ∧ k < y + h) := by
  intro m
  induction m with
  | zero =>
    intro grid grid' i hp a k hfree
    simp only [placeFrom, Except.ok.injEq] at hp
    subst hp
    exact ⟨hfree, by omega⟩
  | succ m ih =>
    intro grid grid' i hp a k hfree
    unfold placeFrom at hp
    split at hp
    · rename_i h0
      obtain ⟨h1, h2⟩ := ih _ _ _ hp a k hfree
      exact ⟨h1, by omega⟩
    · split at hp
      · simp at hp
      · rename_i col hcol
        obtain ⟨⟨c, hc1, hc2⟩, h2⟩ := ih _ _ _ hp a k hfree
        rw [List.getElem?_set] at hc1
        split at hc1
        · rename_i hia
          subst hia
          split at hc1
          · simp only [Option.some.injEq] at hc1
            subst hc1
            obtain ⟨h3, h4⟩ := placeColumn_free num hnum _ _ _ _ hc2
            exact ⟨⟨col, hcol, h4⟩, by omega⟩
          · simp at hc1
        · rename_i hia
          exact ⟨⟨c, hc1, hc2⟩, by omega⟩

theorem findSlot_found (cols w h : Nat) (grid : Grid) :
    ∀ (fuel currX currY x y : Nat), findSlot cols w h grid fuel currX currY = .found x y →
      canFit x y w h grid = some true := by
  intro fuel
  induction fuel with
  | zero => intro currX currY x y hf; simp [findSlot] at hf
  | succ fuel ih =>
    intro currX currY x y hf
    unfold findSlot at hf
    split at hf
    · simp at hf
    · rename_i hfit
      simp only [SlotSearch.found.injEq] at hf
      rw [← hf.1, ← hf.2]; exact hfit
    · split at hf
      · split at hf
        · simp at hf
        · exact ih _ _ _ _ hf
      · exact ih _ _ _ _ hf

theorem findSlot_fuel (cols w h : Nat) (grid : Grid) :
    ∀ (fuel currX currY : Nat),
      (gridHeight + 1 - currY) * (cols + 2) + (cols + 1 - currX) + 1 ≤ fuel →
        findSlot cols w h grid fuel currX currY ≠ .failed .outOfFuel := by
  intro fuel
  induction fuel with
  | zero => intro currX currY hle; omega
  | succ fuel ih =>
    intro currX currY hle
    unfold findSlot
    split
    · simp
    · simp
    · split
      · split
        · simp
        · rename_i hx hy
          apply ih
          have e : gridHeight + 1 - currY = (gridHeight + 1 - (currY + 1)) + 1 := by omega
          rw [e, Nat.succ_mul] at hle
          omega
      · rename_i hx
        apply ih
        omega

theorem slotFuel_enough (cols currX currY : Nat) :
    (gridHeight + 1 - currY) * (cols + 2) + (cols + 1 - currX) + 1 ≤ slotFuel cols := by
  unfold slotFuel
  have h1 : (gridHeight + 1 - currY) * (cols + 2) ≤ (gridHeight + 1) * (cols + 2) :=
    Nat.mul_le_mul_right _ (by omega)
  have h2 : (gridHeight + 2) * (cols + 2) = (gridHeight + 1) * (cols + 2) + (cols + 2) := by
    rw [show gridHeight + 2 = (gridHeight + 1) + 1 from rfl, Nat.succ_mul]
  omega

theorem placeFrom_fuel (y h num : Nat) :
    ∀ (m : Nat) (grid : Grid) (i : Nat), placeFrom y h num grid i m ≠ .error .outOfFuel := by
  intro m
  induction m with
  | zero => intro grid i; simp [placeFrom]
  | succ m ih =>
    intro grid i
    unfold placeFrom
    split
    · exact ih _ _
    · split
      · simp
      · exact ih _ _

theorem layoutCard_step (layoutName : String) (cols : Nat)
    (cardDimensions : String → String → Option Dimensions) (card : Card) (index : Nat)
    (st st' : LayoutState) (item : Option LayoutItem) (placed : List LayoutItem)
    (hstep : layoutCard layoutName cols cardDimensions card index st = .ok (item, st'))
    (hocc : Occupied st.grid placed) :
    (∀ e, item = some e → ∀ p ∈ placed, disjointItems p e) ∧
      Occupied st'.grid (item.toList ++ placed) := by
  unfold layoutCard at hstep
  split at hstep
  · simp at hstep
  · rename_i d hd
    split at hstep
    · simp at hstep
    · simp only [Except.ok.injEq, Prod.mk.injEq] at hstep
      obtain ⟨h1, h2⟩ := hstep
      subst h1; subst h2
      exact ⟨by simp, by simpa using hocc⟩
    · rename_i x y hfound
      have hfit := findSlot_found _ _ _ _ _ _ _ _ _ hfound
      split at hstep
      · simp at hstep
      · rename_i grid' hplace
        simp only [Except.ok.injEq, Prod.mk.injEq] at hstep
        obtain ⟨h1, h2⟩ := hstep
        subst h1; subst h2
        have hfree := canFitFrom_free st.grid y d.h d.w x hfit
        have hkeep := placeFrom_free y d.h (index + 1) (by omega) d.w st.grid grid' x hplace
        constructor
        · intro e he p hp i j hcov
          simp only [Option.some.injEq] at he
          subst he
          obtain ⟨hc1, hc2⟩ := hcov
          exact hocc p hp i j hc1 (hfree i j hc2.1 hc2.2.1 hc2.2.2.1 hc2.2.2.2)
        · intro e he i j hcov hcell
          obtain ⟨hc1, hc2⟩ := hkeep i j hcell
          simp only [Option.toList, List.singleton_append, List.mem_cons] at he
          rcases he with he | he
          · subst he
            exact hc2 hcov
          · exact hocc e he i j hcov hc1

theorem layoutCards_pairwise (layoutName : String) (cols : Nat)
    (cardDimensions : String → String → Option Dimensions) :
    ∀ (cards : List Card) (index : Nat) (st : LayoutState) (placed : List LayoutItem)
      (items : List (Option LayoutItem)),
      layoutCards layoutName cols cardDimensions cards index st = .ok items →
      Occupied st.grid placed →
        (items.filterMap id).Pairwise disjointItems ∧
          ∀ e ∈ items.filterMap id, ∀ p ∈ placed, disjointItems p e := by
  intro cards
  induction cards with
  | nil =>
    intro index st placed items h _
    simp only [layoutCards, Except.ok.injEq] at h
    subst h
    simp
  | cons card rest ih =>
    intro index st placed items h hocc
    unfold layoutCards at h
    split at h
    · simp at h
    · rename_i item st' hstep
      split at h
      · simp at h
      · rename_i items' hrest
        simp only [Except.ok.injEq] at h
        subst h
        obtain ⟨hnew, hocc'⟩ := layoutCard_step _ _ _ _ _ _ _ _ placed hstep hocc
        obtain ⟨hpw, hall⟩ := ih _ _ _ _ hrest hocc'
        cases item with
        | none =>
          simp only [List.filterMap_cons, id_eq]
          refine ⟨hpw, fun e he p hp => hall e he p ?_⟩
          simpa using hp
        | some e =>
          simp only [List.filterMap_cons, id_eq, List.pairwise_cons, List.mem_cons]
          refine ⟨⟨fun b hb => hall b hb e (by simp), hpw⟩, ?_⟩
          intro b hb p hp
          rcases hb with hb | hb
          · subst hb; exact hnew _ rfl p hp
          · exact hall b hb p (by simp [hp])

theorem layoutCard_fuel (layoutName : String) (cols : Nat)
    (cardDimensions : String → String → Option Dimensions) (card : Card) (index : Nat)
    (st : LayoutState) :
    layoutCard layoutName cols cardDimensions card index st ≠ .error .outOfFuel := by
  unfold layoutCard
  split
  · simp
  · split
    · rename_i e he
      intro hc
      simp only [Except.error.injEq] at hc
      subst hc
      exact findSlot_fuel _ _ _ _ _ _ _ (slotFuel_enough _ _ _) he
    · simp
    · split
      · rename_i e he
        intro hc
        simp only [Except.error.injEq] at hc
        subst hc
        exact placeFrom_fuel _ _ _ _ _ _ he
      · simp

theorem layoutCards_fuel (layoutName : String) (cols : Nat)
    (cardDimensions : String → String → Option Dimensions) :
    ∀ (cards : List Card) (index : Nat) (st : LayoutState),
      layoutCards layoutName cols cardDimensions cards index st ≠ .error .outOfFuel := by
  intro cards
  induction cards with
  | nil => intro index st; simp [layoutCards]
  | cons card rest ih =>
    intro index st
    unfold layoutCards
    split
    · rename_i e he
      intro hc
      simp only [Except.error.injEq] at hc
      subst hc
      exact layoutCard_fuel _ _ _ _ _ _ he
    · split
      · rename_i e he
        intro hc
        simp only [Except.error.injEq] at hc
        subst hc
        exact ih _ _ he
      · simp

/-- C1: `getLayout` never runs out of fuel (its search loop terminates), and whenever it
returns a layout, any two distinct entries of the layout occupy disjoint cell rectangles
`[x, x+w) x [y, y+h)`. -/
theorem getLayout_non_overlapping (layoutName : String) (cards : List Card)
    (dashboardColumns : String → Nat)
    (cardDimensions : String → String → Option Dimensions) :
    getLayout layoutName cards dashboardColumns cardDimensions ≠ .error .outOfFuel ∧
      ∀ layout, getLayout layoutName cards dashboardColumns cardDimensions = .ok layout →
        layout.Pairwise disjointItems := by
  unfold getLayout
  constructor
  · split
    · rename_i e he
      intro hc
      simp only [Except.error.injEq] at hc
      subst hc
      exact layoutCards_fuel _ _ _ _ _ _ he
    · simp
  · intro layout h
    split at h
    · simp at h
    · rename_i items hitems
      simp only [Except.ok.injEq] at h
      subst h
      exact (layoutCards_pairwise _ _ _ _ _ _ [] _ hitems (by simp [Occupied])).1

set_option maxRecDepth 100000 in
/-- Witness for C1: a small card of 2 by 1 and a wide card of 4 by 2 on four columns; the
wide card does not fit beside the small one and goes to the next row. -/
theorem getLayout_non_overlapping_witness :
    getLayout "lg" [⟨"a", "SMALL"⟩, ⟨"b", "WIDE"⟩] (fun _ => 4)
        (fun size _ => if size = "SMALL" then some ⟨2, 1⟩ else some ⟨4, 2⟩) =
        .ok [⟨"a", 0, 0, 2, 1⟩, ⟨"b", 0, 1, 4, 2⟩] ∧
      [LayoutItem.mk "a" 0 0 2 1, ⟨"b", 0, 1, 4, 2⟩].Pairwise disjointItems :=
  ⟨rfl, (getLayout_non_overlapping "lg" [⟨"a", "SMALL"⟩, ⟨"b", "WIDE"⟩] (fun _ => 4)
    (fun size _ => if size = "SMALL" then some ⟨2, 1⟩ else some ⟨4, 2⟩)).2 _ rfl⟩

theorem canFitColumn_ne_none (grid : Grid) (i : Nat) (hi : i ≤ grid.length) :
    ∀ (n j : Nat), canFitColumn grid i j n ≠ none := by
  intro n
  induction n with
  | zero => intro j; simp [canFitColumn]
  | succ n ih =>
    intro j
    unfold canFitColumn
    split
    · simp
    · rename_i hne
      have hlt : i < grid.length := by omega
      rw [List.getElem?_eq_getElem hlt]
      simp only
      split
      · simp
      · split
        · simp
        · exact ih _

theorem canFitColumn_true_lt (grid : Grid) (i j n : Nat)
    (h : canFitColumn grid i j (n + 1) = some true) (hi : i ≤ grid.length) :
    i < grid.length := by
  unfold canFitColumn at h
  split at h
  · simp at h
  · omega

theorem canFitFrom_total (grid : Grid) (y h : Nat) (hh : 0 < h) :
    ∀ (m i : Nat), i ≤ grid.length →
      canFitFrom grid y h i m ≠ none ∧
        (canFitFrom grid y h i m = some true → i + m ≤ grid.length) := by
  intro m
  induction m with
  | zero => intro i hi; simp [canFitFrom, hi]
  | succ m ih =>
    intro i hi
    obtain ⟨n, rfl⟩ : ∃ n, h = n + 1 := ⟨h - 1, by omega⟩
    unfold canFitFrom
    split
    · rename_i hcol
      have hlt := canFitColumn_true_lt grid i y n hcol hi
      obtain ⟨h1, h2⟩ := ih (i + 1) hlt
      exact ⟨h1, fun ht => by have := h2 ht; omega⟩
    · rename_i r hr
      refine ⟨canFitColumn_ne_none grid i hi _ _, fun ht => absurd ht hr⟩

theorem placeFrom_ok (y h num : Nat) :
    ∀ (m : Nat) (grid : Grid) (i : Nat), i + m ≤ grid.length →
      ∃ grid', placeFrom y h num grid i m = .ok grid' ∧ grid'.length = grid.length := by
  intro m
  induction m with
  | zero => intro grid i _; exact ⟨grid, by simp [placeFrom]⟩
  | succ m ih =>
    intro grid i hi
    unfold placeFrom
    split
    · exact ih grid (i + 1) (by omega)
    · have hlt : i < grid.length := by omega
      rw [List.getElem?_eq_getElem hlt]
      simp only
      obtain ⟨g, hg1, hg2⟩ := ih (grid.set i (placeColumn num grid[i] y h)) (i + 1)
        (by simp; omega)
      exact ⟨g, hg1, by simpa using hg2⟩

theorem findSlot_total (cols w h : Nat) (grid : Grid) (hh : 0 < h) (hcols : grid.length = cols) :
    ∀ (fuel currX currY : Nat), currX ≤ cols →
      findSlot cols w h grid fuel currX currY ≠ .failed .typeError ∧
        (∀ x y, findSlot cols w h grid fuel currX currY = .found x y → x + w ≤ cols) ∧
        (∀ x y, findSlot cols w h grid fuel currX currY = .gaveUp x y → x ≤ cols) := by
  intro fuel
  induction fuel with
  | zero => intro currX currY _; simp [findSlot]
  | succ fuel ih =>
    intro currX currY hx
    obtain ⟨hnone, htrue⟩ := canFitFrom_total grid currY h hh w currX (by omega)
    unfold findSlot
    split
    · rename_i hfit; exact absurd hfit hnone
    · rename_i hfit
      refine ⟨by simp, ?_, by simp⟩
      intro x y hxy
      simp only [SlotSearch.found.injEq] at hxy
      have := htrue hfit
      omega
    · split
      · split
        · refine ⟨by simp, by simp, ?_⟩
          intro x y hxy
          simp only [SlotSearch.gaveUp.injEq] at hxy
          omega
        · exact ih 0 (currY + 1) (by omega)
      · exact ih (currX + 1) currY (by omega)

theorem layoutCard_ok (layoutName : String) (cols : Nat)
    (cardDimensions : String → String → Option Dimensions) (card : Card) (index : Nat)
    (st : LayoutState) (d : Dimensions) (hd : cardDimensions card.size layoutName = some d)
    (hh : 0 < d.h) (hcols : st.grid.length = cols) (hx : st.currX ≤ cols) :
    ∃ item st', layoutCard layoutName cols cardDimensions card index st = .ok (item, st') ∧
      st'.grid.length = cols ∧ st'.currX ≤ cols := by
  unfold layoutCard
  rw [hd]
  simp only
  obtain ⟨h1, h2, h3⟩ := findSlot_total cols d.w d.h st.grid hh hcols (slotFuel cols)
    st.currX st.currY hx
  split
  · rename_i e he
    cases e with
    | typeError => exact absurd he h1
    | outOfFuel => exact absurd he (findSlot_fuel _ _ _ _ _ _ _ (slotFuel_enough _ _ _))
  · rename_i x y hg
    exact ⟨_, _, rfl, hcols, h3 x y hg⟩
  · rename_i x y hf
    have hle := h2 x y hf
    obtain ⟨g, hg1, hg2⟩ := placeFrom_ok y d.h (index + 1) d.w st.grid x (by omega)
    unfold placeCard
    rw [hg1]
    exact ⟨_, _, rfl, by simpa [hcols] using hg2, hle⟩

theorem layoutCards_ok (layoutName : String) (cols : Nat)
    (cardDimensions : String → String → Option Dimensions) :
    ∀ (cards : List Card) (index : Nat) (st : LayoutState),
      (∀ card ∈ cards, ∃ d, cardDimensions card.size layoutName = some d ∧ 0 < d.h) →
      st.grid.length = cols → st.currX ≤ cols →
        ∃ items, layoutCards layoutName cols cardDimensions cards index st = .ok items := by
  intro cards
  induction cards with
  | nil => intro index st _ _ _; exact ⟨[], rfl⟩
  | cons card rest ih =>
    intro index st hdims hcols hx
    obtain ⟨d, hd, hh⟩ := hdims card (by simp)
    obtain ⟨item, st', hstep, hc', hx'⟩ :=
      layoutCard_ok layoutName cols cardDimensions card index st d hd hh hcols hx
    obtain ⟨items, hitems⟩ := ih (index + 1) st' (fun c hc => hdims c (by simp [hc])) hc' hx'
    unfold layoutCards
    rw [hstep]
    simp only
    rw [hitems]
    exact ⟨_, rfl⟩

/-- When every card has dimensions for the layout with a positive height, `getLayout`
returns a layout (it neither throws nor loops). -/
theorem getLayout_returns (layoutName : String) (cards : List Card)
    (dashboardColumns : String → Nat)
    (cardDimensions : String → String → Option Dimensions)
    (hdims : ∀ card ∈ cards, ∃ d, cardDimensions card.size layoutName = some d ∧ 0 < d.h) :
    ∃ layout, getLayout layoutName cards dashboardColumns cardDimensions = .ok layout := by
  obtain ⟨items, hitems⟩ := layoutCards_ok layoutName (dashboardColumns layoutName)
    cardDimensions cards 0
    { currX := 0, currY := 0, grid := emptyGrid (dashboardColumns layoutName) } hdims
    (by simp [emptyGrid]) (by simp)
  unfold getLayout
  rw [hitems]
  exact ⟨_, rfl⟩

/-! ## Theorems on `isNumberValidForMinMax` -/

/-- C2 (failing input): with `value = -1`, `min = 0`, `max = 10` the function answers
`true` although `-1` is below the provided minimum `0`: the test `if (min)` skips a
minimum of `0`. -/
theorem isNumberValidForMinMax_zero_min :
    isNumberValidForMinMax (some (-1)) (some 0) (some 10) = true ∧
      ¬ ((0 : ℚ) ≤ -1 ∧ (-1 : ℚ) ≤ 10) := by
  refine ⟨by decide, by norm_num⟩

/-- With a minimum and a maximum that are provided and not zero, an integer value is valid
exactly when it lies in the range. -/
theorem isNumberValidForMinMax_nonzero_bounds (v lo hi : ℚ) (hv : v.isInt = true)
    (hlo : lo ≠ 0) (hhi : hi ≠ 0) :
    isNumberValidForMinMax (some v) (some lo) (some hi) = true ↔ lo ≤ v ∧ v ≤ hi := by
  by_cases h1 : v < lo <;> by_cases h2 : v > hi <;>
    simp [isNumberValidForMinMax, hv, truthyNumber, hlo, hhi, h1, h2]
  exact ⟨not_lt.mp h1, not_lt.mp h2⟩

/-- A value that is not an integer is never valid. -/
theorem isNumberValidForMinMax_non_integer (v : ℚ) (lo hi : Option ℚ) (hv : v.isInt = false) :
    isNumberValidForMinMax (some v) lo hi = false := by
  simp [isNumberValidForMinMax, hv]

/-! ## Theorems on `zoom` and the minimap -/

/-- C3 (failing input): with `zoomMax = 2`, an image of natural size 1000 by 1000 shown at
scale 2 in a container of 100 by 100 and a requested scale of 3, `zoom` calls all three
setters and sets `image.scale` to 3, beyond `zoomMax`. -/
theorem zoom_beyond_zoomMax :
    (2 : ℚ) < 3 ∧
      (zoom 3 (some 2) ⟨100, 100, 1, .portrait⟩
        ⟨1000, 1000, 200, 200, 2, 1, .portrait, -50, -50⟩
        ⟨100, 100, 100, 50, 50, 25, 25⟩
        ⟨false, false, false, some true, some true⟩).setImage.map (fun img => img.scale)
          = some 3 ∧
      (zoom 3 (some 2) ⟨100, 100, 1, .portrait⟩
        ⟨1000, 1000, 200, 200, 2, 1, .portrait, -50, -50⟩
        ⟨100, 100, 100, 50, 50, 25, 25⟩
        ⟨false, false, false, some true, some true⟩).setMinimap.isSome = true ∧
      (zoom 3 (some 2) ⟨100, 100, 1, .portrait⟩
        ⟨1000, 1000, 200, 200, 2, 1, .portrait, -50, -50⟩
        ⟨100, 100, 100, 50, 50, 25, 25⟩
        ⟨false, false, false, some true, some true⟩).setOptions.isSome = true := by
  refine ⟨by norm_num, ?_, ?_, ?_⟩ <;>
    simp [zoom, calculateImageWidth, calculateImageHeight, truthyNumber] <;> norm_num

/-- Without a natural size above the requested size, `zoom` calls no setter for a scale
that is not below a defined, non-zero `zoomMax`. -/
theorem zoom_blocked (scale zm : ℚ) (container : Container) (image : Image)
    (minimap : Minimap) (options : Options) (hscale : 1 < scale) (hzm : zm ≤ scale)
    (hnat : ¬ (image.initialWidth >
          calculateImageWidth container image.orientation image.ratio scale ∧
        image.initialHeight >
          calculateImageHeight container image.orientation image.ratio scale)) :
    zoom scale (some zm) container image minimap options =
      { setImage := none, setMinimap := none, setOptions := none } := by
  have h1 : scale ≠ 1 := ne_of_gt hscale
  have h2 : ¬ scale < zm := not_lt.mpr hzm
  simp only [zoom, h1, if_false, hscale, if_true, h2, decide_False, Bool.and_false,
    Bool.false_or, Bool.and_eq_true, decide_eq_true_eq, hnat]

theorem handleEvent_minimapHiddenWithControls (s : HotspotsState) (ev : HotspotsEvent)
    (h : minimapHiddenWithControls s.options) :
    minimapHiddenWithControls (handleEvent s ev).options := by
  cases ev with
  | imageLoad ow oh container =>
    simp only [handleEvent, applySetters, onImageLoad, Option.getD_some,
      minimapHiddenWithControls, Bool.or_eq_true]
    intro hm
    rcases hm with hm | hm
    · exact Or.inl (h hm)
    · exact Or.inr hm
  | zoomTo scale zoomMax container =>
    simp only [handleEvent, applySetters, zoom]
    split
    · exact h
    · split
      · split
        · exact h
        · exact h
      · exact h

theorem runEvents_minimapHiddenWithControls (events : List HotspotsEvent) :
    ∀ s : HotspotsState, minimapHiddenWithControls s.options →
      minimapHiddenWithControls (runEvents s events).options := by
  induction events with
  | nil => intro s h; exact h
  | cons ev rest ih =>
    intro s h
    exact ih (handleEvent s ev) (handleEvent_minimapHiddenWithControls s ev h)

/-- C9 (failing input): with `minimapBehavior = 'show'`, a container of 100 by 100 and a
loaded image of 150 by 150, the image is not resizable and `onImageLoad` sets `hideMinimap`
and `hideZoomControls` to true, whatever the image and minimap state were: the options state
holds `hideMinimap = true`, and ImageControls, which holds the minimap, is not rendered
(`!hideZoomControls && ...`), so no `hideMinimap = false` is handed to it and no minimap is
shown. -/
theorem show_minimap_hidden_not_resizable (image : Image) (minimap : Minimap) :
    (onImageLoad 150 150 ⟨100, 100, 1, .portrait⟩ image minimap
        (initialOptions false false .show)).setOptions =
      some ⟨true, false, true, some false, some false⟩ ∧
    (runEvents ⟨image, minimap, initialOptions false false .show⟩
        [.imageLoad 150 150 ⟨100, 100, 1, .portrait⟩]).options.hideMinimap = true ∧
    (∀ hideMinimapProp dragging : Bool,
      imageControlsHideMinimap .show hideMinimapProp dragging
        (runEvents ⟨image, minimap, initialOptions false false .show⟩
          [.imageLoad 150 150 ⟨100, 100, 1, .portrait⟩]).options = none) := by
  refine ⟨?_, ?_, ?_⟩ <;>
    simp [imageControlsHideMinimap, runEvents, handleEvent, applySetters, onImageLoad,
      initialOptions, calculateImageWidth, calculateImageHeight] <;> norm_num

/-- With `minimapBehavior = 'show'`, in every state reached from the initial options through
`onImageLoad` and `zoom`, whenever ImageControls is rendered the `hideMinimap` prop handed
to it is `false`: the minimap is hidden only together with the zoom controls. -/
theorem show_minimap_never_hidden (hideZoomControlsProp hideHotspotsProp : Bool)
    (image : Image) (minimap : Minimap) (events : List HotspotsEvent)
    (hideMinimapProp dragging v : Bool)
    (h : imageControlsHideMinimap .show hideMinimapProp dragging
      (runEvents ⟨image, minimap, initialOptions hideZoomControlsProp hideHotspotsProp .show⟩
        events).options = some v) :
    v = false := by
  have hinv := runEvents_minimapHiddenWithControls events
    ⟨image, minimap, initialOptions hideZoomControlsProp hideHotspotsProp .show⟩
    (by simp [minimapHiddenWithControls, initialOptions])
  unfold imageControlsHideMinimap at h
  split at h
  · simp at h
  · rename_i hz
    simp only [reduceCtorEq, if_false, Option.some.injEq] at h
    subst h
    by_contra hne
    exact hz (hinv (by simpa using hne))

/-- An instance of the above: after loading an image of 1000 by 1000 into a container of
100 by 100 ImageControls is rendered and gets `hideMinimap = false`. -/
theorem show_minimap_never_hidden_witness :
    imageControlsHideMinimap .show false false
        (runEvents ⟨⟨0, 0, 0, 0, 0, 0, .portrait, 0, 0⟩, ⟨100, 0, 0, 0, 0, 0, 0⟩,
            initialOptions false false .show⟩
          [.imageLoad 1000 1000 ⟨100, 100, 1, .portrait⟩]).options = some false ∧
      false = false :=
  ⟨by simp [imageControlsHideMinimap, runEvents, handleEvent, applySetters, onImageLoad,
      initialOptions, calculateImageWidth, calculateImageHeight]; norm_num,
    show_minimap_never_hidden false false ⟨0, 0, 0, 0, 0, 0, .portrait, 0, 0⟩
      ⟨100, 0, 0, 0, 0, 0, 0⟩ [.imageLoad 1000 1000 ⟨100, 100, 1, .portrait⟩] false false false
      (by simp [imageControlsHideMinimap, runEvents, handleEvent, applySetters, onImageLoad,
        initialOptions, calculateImageWidth, calculateImageHeight]; norm_num)⟩

/-! ## Theorems on `hexToRgb` -/

theorem hexDigit_class (c : Char) (hc : c ∈ hexDigits) :
    matchesHexClass c = true ∧ radix16Digit c = some (hexDigitValue c) ∧
      hexDigitValue c < 16 ∧ c ≠ '#' := by
  simp only [hexDigits, String.toList, List.mem_cons, List.mem_singleton, List.not_mem_nil,
    or_false] at hc
  rcases hc with h | h | h | h | h | h | h | h | h | h | h | h | h | h | h | h | h | h | h |
    h | h | h <;> subst h <;> decide

theorem char_eq_of_toNat (c : Char) (n : Nat) (h : c.toNat = n) : c = Char.ofNat n := by
  rw [← h, Char.ofNat_toNat]

theorem matchesHexClass_mem (c : Char) (hc : matchesHexClass c = true) : c ∈ hexDigits := by
  simp only [matchesHexClass, Bool.or_eq_true, Bool.and_eq_true, decide_eq_true_eq] at hc
  simp only [Char.le_def, UInt32.le_def, BitVec.le_def] at hc
  have key : ∀ n, c.toNat = n → c = Char.ofNat n := char_eq_of_toNat c
  have hn : c.toNat = c.val.toBitVec.toNat := rfl
  have ha : 'a'.val.toBitVec.toNat = 97 := rfl
  have hf : 'f'.val.toBitVec.toNat = 102 := rfl
  have hA : 'A'.val.toBitVec.toNat = 65 := rfl
  have hF : 'F'.val.toBitVec.toNat = 70 := rfl
  have h0 : '0'.val.toBitVec.toNat = 48 := rfl
  have h9 : '9'.val.toBitVec.toNat = 57 := rfl
  rw [ha, hf, hA, hF, h0, h9, ← hn] at hc
  generalize c.toNat = n at hc key
  rcases hc with (⟨h1, h2⟩ | ⟨h1, h2⟩) | ⟨h1, h2⟩ <;> interval_cases n <;>
    (rw [key _ rfl]; decide)

theorem hexColorExec_isHexColor (s : String) (g : List Char × List Char × List Char)
    (h : hexColorExec s = some g) : IsHexColor s := by
  unfold hexColorExec at h
  simp only at h
  split at h
  · rename_i body c1 c2 c3 c4 c5 c6 hbody
    split at h
    · rename_i hall
      simp only [Bool.and_eq_true] at hall
      obtain ⟨⟨⟨⟨⟨h1, h2⟩, h3⟩, h4⟩, h5⟩, h6⟩ := hall
      refine ⟨[c1, c2, c3, c4, c5, c6], ?_, rfl, ?_⟩
      · split at hbody
        · rename_i rest hrest
          right; rw [hrest, hbody]
        · left; exact hbody
      · intro c hc
        simp only [List.mem_cons, List.mem_singleton, List.not_mem_nil, or_false] at hc
        rcases hc with rfl | rfl | rfl | rfl | rfl | rfl <;>
          exact matchesHexClass_mem _ (by assumption)
    · simp at h
  · simp at h

/-- C4: for every string made of an optional leading `#` followed by exactly six hexadecimal
digits, upper or lower case, `hexToRgb` returns `{ r, g, b }` with the base-16 values of the
first, second and third pair of digits, each between 0 and 255. -/
theorem hexToRgb_valid (s : String) (c1 c2 c3 c4 c5 c6 : Char)
    (hs : s.toList = [c1, c2, c3, c4, c5, c6] ∨ s.toList = '#' :: [c1, c2, c3, c4, c5, c6])
    (h1 : c1 ∈ hexDigits) (h2 : c2 ∈ hexDigits) (h3 : c3 ∈ hexDigits)
    (h4 : c4 ∈ hexDigits) (h5 : c5 ∈ hexDigits) (h6 : c6 ∈ hexDigits) :
    hexToRgb (.str s) =
        { r := some (16 * hexDigitValue c1 + hexDigitValue c2)
          g := some (16 * hexDigitValue c3 + hexDigitValue c4)
          b := some (16 * hexDigitValue c5 + hexDigitValue c6) } ∧
      16 * hexDigitValue c1 + hexDigitValue c2 ≤ 255 ∧
      16 * hexDigitValue c3 + hexDigitValue c4 ≤ 255 ∧
      16 * hexDigitValue c5 + hexDigitValue c6 ≤ 255 := by
  obtain ⟨m1, d1, b1, n1⟩ := hexDigit_class c1 h1
  obtain ⟨m2, d2, b2, -⟩ := hexDigit_class c2 h2
  obtain ⟨m3, d3, b3, -⟩ := hexDigit_class c3 h3
  obtain ⟨m4, d4, b4, -⟩ := hexDigit_class c4 h4
  obtain ⟨m5, d5, b5, -⟩ := hexDigit_class c5 h5
  obtain ⟨m6, d6, b6, -⟩ := hexDigit_class c6 h6
  refine ⟨?_, by omega, by omega, by omega⟩
  have hexec : hexColorExec s = some ([c1, c2], [c3, c4], [c5, c6]) := by
    unfold hexColorExec
    rcases hs with hs | hs
    · rw [hs]
      have : (match [c1, c2, c3, c4, c5, c6] with
          | '#' :: rest => rest
          | cs => cs) = [c1, c2, c3, c4, c5, c6] := by
        split
        · rename_i rest heq
          simp only [List.cons.injEq] at heq
          exact absurd heq.1 n1
        · rfl
      simp only [this, m1, m2, m3, m4, m5, m6, Bool.and_self, if_true]
    · rw [hs]
      simp only [m1, m2, m3, m4, m5, m6, Bool.and_self, if_true]
  simp only [hexToRgb, HexColorArg.toJsString, hexec, parseInt16, parseDigits16, d1, d2,
    d3, d4, d5, d6, Option.getD_some, Nat.mul_comm]

/-- Witness for C4: the colour `#FFa010`. -/
theorem hexToRgb_valid_witness :
    ("#FFa010".toList = ['F', 'F', 'a', '0', '1', '0'] ∨
        "#FFa010".toList = '#' :: ['F', 'F', 'a', '0', '1', '0']) ∧
      'F' ∈ hexDigits ∧ 'a' ∈ hexDigits ∧ '0' ∈ hexDigits ∧ '1' ∈ hexDigits ∧
      hexToRgb (.str "#FFa010") =
        { r := some (16 * hexDigitValue 'F' + hexDigitValue 'F')
          g := some (16 * hexDigitValue 'a' + hexDigitValue '0')
          b := some (16 * hexDigitValue '1' + hexDigitValue '0') } ∧
      16 * hexDigitValue 'F' + hexDigitValue 'F' ≤ 255 ∧
      16 * hexDigitValue 'a' + hexDigitValue '0' ≤ 255 ∧
      16 * hexDigitValue '1' + hexDigitValue '0' ≤ 255 :=
  ⟨Or.inr rfl, by decide, by decide, by decide, by decide,
    hexToRgb_valid "#FFa010" 'F' 'F' 'a' '0' '1' '0' (Or.inr rfl)
      (by decide) (by decide) (by decide) (by decide) (by decide) (by decide)⟩

/-- C5: for every input (a string, `null` or `undefined`) whose string form is not an optional
`#` followed by exactly six hexadecimal digits, `hexToRgb` returns the gray
`{ r: 200, g: 200, b: 200 }`; so it does for `'#fff'`, `''`, `null` and `undefined`. -/
theorem hexToRgb_default_gray :
    (∀ arg : HexColorArg, ¬ IsHexColor arg.toJsString →
        hexToRgb arg = { r := some 200, g := some 200, b := some 200 }) ∧
      hexToRgb (.str "#fff") = { r := some 200, g := some 200, b := some 200 } ∧
      hexToRgb (.str "") = { r := some 200, g := some 200, b := some 200 } ∧
      hexToRgb .null = { r := some 200, g := some 200, b := some 200 } ∧
      hexToRgb .undefined = { r := some 200, g := some 200, b := some 200 } := by
  refine ⟨?_, by decide, by decide, by decide, by decide⟩
  intro arg hnot
  unfold hexToRgb
  cases hexec : hexColorExec arg.toJsString with
  | none => rfl
  | some g => exact absurd (hexColorExec_isHexColor _ g hexec) hnot

/-- Witness for C5: the colour name `red` is not a hexadecimal colour and gives gray. -/
theorem hexToRgb_default_gray_witness :
    ¬ IsHexColor (HexColorArg.str "red").toJsString ∧
      hexToRgb (.str "red") = { r := some 200, g := some 200, b := some 200 } :=
  ⟨by
    rintro ⟨body, hb, hlen, -⟩
    rcases hb with hb | hb
    · rw [← hb] at hlen; simp [HexColorArg.toJsString] at hlen
    · simp [HexColorArg.toJsString] at hb,
   hexToRgb_default_gray.1 (.str "red") (by
    rintro ⟨body, hb, hlen, -⟩
    rcases hb with hb | hb
    · rw [← hb] at hlen; simp [HexColorArg.toJsString] at hlen
    · simp [HexColorArg.toJsString] at hb)⟩

/-! ## Theorems on `generateCsv` -/

theorem allColumnHeaders_eq (data : List DataRow) :
    allColumnHeaders data = (data.map objectKeys).flatten := by
  have h : ∀ (rows : List DataRow) (acc : List String),
      rows.foldl (fun columnHeaders item => columnHeaders ++ objectKeys item) acc =
        acc ++ (rows.map objectKeys).flatten := by
    intro rows
    induction rows with
    | nil => intro acc; simp
    | cons r rest ih => intro acc; simp [ih]
  simpa [allColumnHeaders] using h data []

/-- What the insertions into the `Set` keep true: no key twice, the keys seen so far, in the
order of their first appearance. -/
theorem uniqueInOrder_fold (rest : List String) :
    ∀ (seen done : List String),
      seen.Nodup → (∀ k, k ∈ seen ↔ k ∈ done) →
      seen.Pairwise (fun a b => done.indexOf a < done.indexOf b) →
      let out := rest.foldl (fun seen k => if k ∈ seen then seen else seen ++ [k]) seen
      out.Nodup ∧ (∀ k, k ∈ out ↔ k ∈ done ++ rest) ∧
        out.Pairwise (fun a b => (done ++ rest).indexOf a < (done ++ rest).indexOf b) := by
  induction rest with
  | nil => intro seen done h1 h2 h3; simpa using ⟨h1, h2, h3⟩
  | cons k rest ih =>
    intro seen done h1 h2 h3
    have hmono : seen.Pairwise
        (fun a b => (done ++ [k]).indexOf a < (done ++ [k]).indexOf b) := by
      refine List.Pairwise.imp_of_mem ?_ h3
      intro a b ha hb hab
      rw [List.indexOf_append_of_mem ((h2 a).1 ha), List.indexOf_append_of_mem ((h2 b).1 hb)]
      exact hab
    simp only [List.foldl_cons]
    have happ : done ++ k :: rest = (done ++ [k]) ++ rest := by simp
    rw [happ]
    by_cases hk : k ∈ seen
    · simp only [hk, if_true]
      refine ih seen (done ++ [k]) h1 ?_ hmono
      intro a
      simp only [List.mem_append, List.mem_singleton]
      constructor
      · intro ha; exact Or.inl ((h2 a).1 ha)
      · rintro (ha | rfl)
        · exact (h2 a).2 ha
        · exact hk
    · simp only [hk, if_false]
      have hkd : k ∉ done := fun h => hk ((h2 k).2 h)
      refine ih (seen ++ [k]) (done ++ [k]) ?_ ?_ ?_
      · rw [List.nodup_append]
        refine ⟨h1, by simp, ?_⟩
        intro a ha hb
        simp only [List.mem_singleton] at hb
        exact hk (hb ▸ ha)
      · intro a
        simp only [List.mem_append, List.mem_singleton, h2 a]
      · rw [List.pairwise_append]
        refine ⟨hmono, by simp, ?_⟩
        intro a ha b hb
        simp only [List.mem_singleton] at hb
        subst hb
        rw [List.indexOf_append_of_mem ((h2 a).1 ha), List.indexOf_append_of_not_mem hkd]
        have := List.indexOf_lt_length.2 ((h2 a).1 ha)
        omega

theorem uniqueInOrder_spec (keys : List String) :
    (uniqueInOrder keys).Nodup ∧ (∀ k, k ∈ uniqueInOrder keys ↔ k ∈ keys) ∧
      (uniqueInOrder keys).Pairwise (fun a b => keys.indexOf a < keys.indexOf b) := by
  have h := uniqueInOrder_fold keys [] [] List.nodup_nil (by simp) List.Pairwise.nil
  simpa [uniqueInOrder] using h

theorem row_fold (item : DataRow) (columnHeaders : List String) :
    ∀ csv : String,
      columnHeaders.foldl (fun csv arrayHeader => csv ++ (csvCell item arrayHeader ++ ",")) csv =
        csv ++ csvRowText columnHeaders item := by
  induction columnHeaders with
  | nil => intro csv; simp [csvRowText, String.join]
  | cons hd rest ih =>
    intro csv
    simp only [List.foldl_cons, ih]
    apply String.ext
    simp [csvRowText, String.data_append, List.append_assoc]

theorem rows_fold (columnHeaders : List String) (data : List DataRow) :
    ∀ csv : String,
      data.foldl (fun csv item =>
          columnHeaders.foldl (fun csv arrayHeader =>
            csv ++ (csvCell item arrayHeader ++ ",")) csv ++ "\n") csv =
        csv ++ unlines (data.map (csvRowText columnHeaders)) := by
  induction data with
  | nil => intro csv; simp [unlines]
  | cons item rest ih =>
    intro csv
    rw [List.foldl_cons, ih, row_fold, List.map_cons, unlines]
    apply String.ext
    simp [String.data_append, List.append_assoc]

theorem generateCsv_eq_unlines (data : List DataRow) :
    generateCsv data =
      unlines (jsJoin "," (csvColumnHeaders data) ::
        data.map (csvRowText (csvColumnHeaders data))) := by
  unfold generateCsv
  simp only []
  rw [rows_fold, unlines, String.empty_append]

theorem noNewline_append (s t : String) (hs : NoNewline s) (ht : NoNewline t) :
    NoNewline (s ++ t) := by
  simp only [NoNewline, String.toList, String.data_append, List.mem_append, not_or] at *
  exact ⟨hs, ht⟩

theorem noNewline_jsJoin (keys : List String) (h : ∀ k ∈ keys, NoNewline k) :
    NoNewline (jsJoin "," keys) := by
  induction keys with
  | nil => simp [jsJoin, NoNewline]
  | cons a rest ih =>
    cases rest with
    | nil => simpa [jsJoin] using h a (by simp)
    | cons b rest =>
      simp only [jsJoin]
      refine noNewline_append _ _ (noNewline_append _ _ (h a (by simp)) (by decide)) ?_
      exact ih (fun k hk => h k (by simp [hk]))

theorem lookup_mem (values : List (String × CellValue)) (key : String) (v : CellValue)
    (h : values.lookup key = some v) : ∃ kv ∈ values, kv.2 = v := by
  induction values with
  | nil => simp at h
  | cons kv rest ih =>
    obtain ⟨k, w⟩ := kv
    simp only [List.lookup_cons] at h
    split at h
    · simp only [Option.some.injEq] at h
      exact ⟨(k, w), by simp, h⟩
    · obtain ⟨kv, hkv, hv⟩ := ih h
      exact ⟨kv, by simp [hkv], hv⟩

theorem noNewline_csvCell (item : DataRow) (arrayHeader : String)
    (hown : objectPrototype.lookup arrayHeader = none)
    (h : ∀ kv ∈ item.values, NoNewline kv.2.toJsString) :
    NoNewline (csvCell item arrayHeader) := by
  unfold csvCell readValue
  cases hl : item.values.lookup arrayHeader with
  | none => simp [hown, isNil, NoNewline]
  | some v =>
    obtain ⟨kv, hkv, hv⟩ := lookup_mem _ _ _ hl
    simp only
    split
    · rw [← hv]; exact h kv hkv
    · simp [NoNewline]

theorem noNewline_join (parts : List String) (h : ∀ s ∈ parts, NoNewline s) :
    NoNewline (String.join parts) := by
  unfold NoNewline
  rw [String.toList, String.data_join]
  intro hmem
  rw [List.mem_flatten] at hmem
  obtain ⟨cs, hcs, hc⟩ := hmem
  rw [List.mem_map] at hcs
  obtain ⟨s, hs, rfl⟩ := hcs
  exact h s hs hc

theorem noNewline_csvRowText (columnHeaders : List String) (item : DataRow)
    (hown : ∀ k ∈ columnHeaders, objectPrototype.lookup k = none)
    (h : ∀ kv ∈ item.values, NoNewline kv.2.toJsString) :
    NoNewline (csvRowText columnHeaders item) := by
  apply noNewline_join
  intro s hs
  rw [List.mem_map] at hs
  obtain ⟨hd, hhd, rfl⟩ := hs
  exact noNewline_append _ _ (noNewline_csvCell item hd (hown hd hhd) h) (by decide)

theorem newlineCount_unlines (lines : List String) (h : ∀ l ∈ lines, NoNewline l) :
    newlineCount (unlines lines) = lines.length := by
  induction lines with
  | nil => simp [unlines, newlineCount]
  | cons l rest ih =>
    have hl : List.count '\n' l.data = 0 := List.count_eq_zero_of_not_mem (h l (by simp))
    have hr := ih (fun k hk => h k (by simp [hk]))
    simp only [newlineCount, String.toList] at hr
    simp only [unlines, newlineCount, String.toList, String.data_append, List.count_append, hl,
      hr, List.length_cons]
    simp
    omega

/-- C6 (counterexample): for the single row `{ values: { 'a\nb': 1 } }` no value contains a
newline, yet the result `'a\nb\n1,\n'` has three newline-terminated pieces, not
`data.length + 1 = 2`; and a value that is the empty string, which is neither null nor
undefined nor absent, is written as the empty string. -/
theorem generateCsv_newline_in_key :
    (∀ item ∈ [DataRow.mk [("a\nb", CellValue.num 1)]],
        ∀ kv ∈ item.values, NoNewline kv.2.toJsString) ∧
      generateCsv [DataRow.mk [("a\nb", CellValue.num 1)]] = "a\nb\n1,\n" ∧
      newlineCount (generateCsv [DataRow.mk [("a\nb", CellValue.num 1)]]) ≠
        [DataRow.mk [("a\nb", CellValue.num 1)]].length + 1 ∧
      (DataRow.mk [("a", CellValue.str "")]).values.lookup "a" = some (CellValue.str "") ∧
      isNil (CellValue.str "") = false ∧
      csvCell (DataRow.mk [("a", CellValue.str "")]) "a" = "" := by
  refine ⟨?_, by decide, by decide, by decide, by decide, by decide⟩
  intro item hitem kv hkv
  simp only [List.mem_singleton] at hitem
  subst hitem
  simp only [List.mem_singleton] at hkv
  subst hkv
  decide

/-- C6 (amended): the result of `generateCsv` is the header line followed by one line per
row, each ended by a newline; the header line is the comma-joined list of the distinct keys
of all rows in order of first appearance; the line of a row lists, in header order, the
row's value for each header followed by a comma, the empty string standing in for a value
that is null or undefined, or absent under a header that names no member of
`Object.prototype` (`0` and `false` are written `0` and `false`, any other value of the row
as its own text); and when no key names a member of `Object.prototype` and no key and no
value contains a newline, no line does and the result has exactly `data.length + 1`
newlines. -/
theorem generateCsv_lines (data : List DataRow) :
    generateCsv data =
        unlines (jsJoin "," (csvColumnHeaders data) ::
          data.map (csvRowText (csvColumnHeaders data))) ∧
      (csvColumnHeaders data).Nodup ∧
      (∀ k, k ∈ csvColumnHeaders data ↔ ∃ item ∈ data, k ∈ objectKeys item) ∧
      (csvColumnHeaders data).Pairwise (fun a b =>
        (data.map objectKeys).flatten.indexOf a < (data.map objectKeys).flatten.indexOf b) ∧
      (∀ (item : DataRow) (columnHeaders : List String),
        csvRowText columnHeaders item =
          String.join (columnHeaders.map fun k => csvCell item k ++ ",")) ∧
      (∀ (item : DataRow) (k : String),
        (item.values.lookup k = none → objectPrototype.lookup k = none →
          csvCell item k = "") ∧
        (item.values.lookup k = some .null → csvCell item k = "") ∧
        (item.values.lookup k = some .undefined → csvCell item k = "") ∧
        (∀ v, item.values.lookup k = some v → isNil v = false →
          csvCell item k = v.toJsString)) ∧
      (CellValue.num 0).toJsString = "0" ∧ (CellValue.bool false).toJsString = "false" ∧
      ((∀ item ∈ data, ∀ kv ∈ item.values,
          objectPrototype.lookup kv.1 = none ∧ NoNewline kv.1 ∧ NoNewline kv.2.toJsString) →
        (∀ l ∈ jsJoin "," (csvColumnHeaders data) ::
            data.map (csvRowText (csvColumnHeaders data)), NoNewline l) ∧
          newlineCount (generateCsv data) = data.length + 1) := by
  obtain ⟨hnd, hmem, hpw⟩ := uniqueInOrder_spec (allColumnHeaders data)
  have hkeys : ∀ k, k ∈ csvColumnHeaders data ↔ ∃ item ∈ data, k ∈ objectKeys item := by
    intro k
    rw [csvColumnHeaders, hmem k, allColumnHeaders_eq]
    simp only [List.mem_flatten, List.mem_map]
    constructor
    · rintro ⟨l, ⟨item, hitem, rfl⟩, hk⟩; exact ⟨item, hitem, hk⟩
    · rintro ⟨item, hitem, hk⟩; exact ⟨_, ⟨item, hitem, rfl⟩, hk⟩
  refine ⟨generateCsv_eq_unlines data, hnd, hkeys, ?_, fun _ _ => rfl, ?_, by decide,
    by decide, ?_⟩
  · rw [← allColumnHeaders_eq]; exact hpw
  · intro item k
    refine ⟨?_, ?_, ?_, ?_⟩
    · intro h hown; simp [csvCell, readValue, h, hown, isNil]
    · intro h; simp [csvCell, readValue, h, isNil]
    · intro h; simp [csvCell, readValue, h, isNil]
    · intro v h hv; simp [csvCell, readValue, h, hv]
  · intro hfree
    have hheaders : ∀ k ∈ csvColumnHeaders data,
        objectPrototype.lookup k = none ∧ NoNewline k := by
      intro k hk
      obtain ⟨item, hitem, hk'⟩ := (hkeys k).1 hk
      simp only [objectKeys, List.mem_map] at hk'
      obtain ⟨kv, hkv, rfl⟩ := hk'
      exact ⟨(hfree item hitem kv hkv).1, (hfree item hitem kv hkv).2.1⟩
    have hlines : ∀ l ∈ jsJoin "," (csvColumnHeaders data) ::
        data.map (csvRowText (csvColumnHeaders data)), NoNewline l := by
      intro l hl
      simp only [List.mem_cons, List.mem_map] at hl
      rcases hl with rfl | ⟨item, hitem, rfl⟩
      · exact noNewline_jsJoin _ (fun k hk => (hheaders k hk).2)
      · exact noNewline_csvRowText _ item (fun k hk => (hheaders k hk).1)
          (fun kv hkv => (hfree item hitem kv hkv).2.2)
    refine ⟨hlines, ?_⟩
    rw [generateCsv_eq_unlines, newlineCount_unlines _ hlines]
    simp

/-- For a row that lacks a key that names a member of `Object.prototype`, the read
`item.values[arrayHeader]` yields the inherited member, not `undefined`: under the header
`constructor` the second row, which has no such value, gets the text of the function
`Object`. The comment on that line says "if item is of arrayHeader, add value to csv". -/
theorem generateCsv_inherited_member :
    (DataRow.mk [("a", .num 2)]).values.lookup "constructor" = none ∧
      csvCell ⟨[("a", .num 2)]⟩ "constructor" =
        "function Object() \x7b [native code] \x7d" ∧
      generateCsv [⟨[("constructor", .num 1)]⟩, ⟨[("a", .num 2)]⟩] =
        "constructor,a\n1,,\nfunction Object() \x7b [native code] \x7d,2,\n" := by
  refine ⟨by decide, by decide, by decide⟩

/-- Witness for C6: two rows with the keys `a`, `b` and `c`, `a`. -/
theorem generateCsv_lines_witness :
    (∀ item ∈ [DataRow.mk [("a", .num 0), ("b", .bool false)],
          DataRow.mk [("c", .str "x"), ("a", .null)]],
        ∀ kv ∈ item.values,
          objectPrototype.lookup kv.1 = none ∧ NoNewline kv.1 ∧ NoNewline kv.2.toJsString) ∧
      newlineCount (generateCsv [DataRow.mk [("a", .num 0), ("b", .bool false)],
          DataRow.mk [("c", .str "x"), ("a", .null)]]) = 2 + 1 :=
  have h : ∀ item ∈ [DataRow.mk [("a", .num 0), ("b", .bool false)],
          DataRow.mk [("c", .str "x"), ("a", .null)]],
        ∀ kv ∈ item.values,
          objectPrototype.lookup kv.1 = none ∧ NoNewline kv.1 ∧ NoNewline kv.2.toJsString := by
    intro item hitem kv hkv
    simp only [List.mem_cons, List.mem_singleton, List.not_mem_nil, or_false] at hitem
    rcases hitem with rfl | rfl <;>
      simp only [List.mem_cons, List.mem_singleton, List.not_mem_nil, or_false] at hkv <;>
      rcases hkv with rfl | rfl <;> decide
  ⟨h, ((generateCsv_lines _).2.2.2.2.2.2.2.2 h).2⟩

/-! ## Theorems on `getSortedData` -/

theorem arraySort_perm (cmp : DataRow → DataRow → Int) (rows : List DataRow) :
    (arraySort cmp rows).Perm rows :=
  List.perm_insertionSort (fun r1 r2 => cmp r1 r2 ≤ 0) rows

/-- C7: `getSortedData` returns, and leaves `inputData` with the same elements in the same
order (as it does every array that existed before the call); the returned array is a
different array whose elements are a permutation of those of `inputData`, so with the same
length. -/
theorem getSortedData_clones (env : SortBuiltins) (heap : Heap) (inputData : ArrayRef)
    (rows : List DataRow) (columnId direction : String) (isTimestampColumn : Bool)
    (hin : heap.read inputData = some rows) :
    ∃ heap' sortedData sorted,
      getSortedData env heap inputData columnId direction isTimestampColumn =
        some (heap', sortedData) ∧
      heap'.read inputData = some rows ∧
      (∀ ref a, heap.read ref = some a → heap'.read ref = some a) ∧
      sortedData ≠ inputData ∧
      heap'.read sortedData = some sorted ∧
      sorted.Perm rows ∧ sorted.length = rows.length := by
  have hlt : inputData < heap.arrays.length := by
    simp only [Heap.read] at hin
    exact (List.getElem?_eq_some.1 hin).1
  have hnew : (heap.alloc (rows.map fun i => i)).1.read heap.arrays.length = some rows := by
    simp [Heap.read, Heap.alloc]
  have hkeep : ∀ (new : List DataRow) ref a, heap.read ref = some a →
      (Heap.write (heap.alloc (rows.map fun i => i)).1 heap.arrays.length new).read ref
        = some a := by
    intro new ref a ha
    have hr : ref < heap.arrays.length := by
      simp only [Heap.read] at ha
      exact (List.getElem?_eq_some.1 ha).1
    simp only [Heap.read] at ha
    simp only [Heap.read, Heap.write, Heap.alloc]
    rw [List.getElem?_set_ne (Nat.ne_of_gt hr), List.getElem?_append_left hr]
    exact ha
  have hres : getSortedData env heap inputData columnId direction isTimestampColumn =
      some (Heap.write (heap.alloc (rows.map fun i => i)).1 heap.arrays.length
        (arraySort (firstBy (fun row => readValue row.values columnId)
          (sortTableData env isTimestampColumn) (if direction = "ASC" then false else true))
          rows), heap.arrays.length) := by
    unfold getSortedData
    rw [hin]
    simp only
    have : (heap.alloc (rows.map fun i => i)).2 = heap.arrays.length := rfl
    rw [this, hnew]
  refine ⟨_, _, arraySort (firstBy (fun row => readValue row.values columnId)
      (sortTableData env isTimestampColumn) (if direction = "ASC" then false else true)) rows,
    hres, hkeep _ _ _ hin, fun ref a ha => hkeep _ _ _ ha, Nat.ne_of_gt hlt,
    ?_, arraySort_perm _ rows, (arraySort_perm _ rows).length_eq⟩
  simp [Heap.read, Heap.write, Heap.alloc]

/-- Witness for C7: two rows sorted on the column `n`, ascending. -/
theorem getSortedData_clones_witness :
    (Heap.mk [[⟨[("n", .num 2)]⟩, ⟨[("n", .num 1)]⟩]]).read 0 =
        some [⟨[("n", .num 2)]⟩, ⟨[("n", .num 1)]⟩] ∧
      ∃ heap' sortedData sorted,
        getSortedData ⟨fun _ => none, fun _ => none, fun _ _ => 0⟩
          ⟨[[⟨[("n", .num 2)]⟩, ⟨[("n", .num 1)]⟩]]⟩ 0 "n" "ASC" false =
          some (heap', sortedData) ∧
        heap'.read 0 = some [⟨[("n", .num 2)]⟩, ⟨[("n", .num 1)]⟩] ∧
        (∀ ref a, (Heap.mk [[⟨[("n", .num 2)]⟩, ⟨[("n", .num 1)]⟩]]).read ref = some a →
          heap'.read ref = some a) ∧
        sortedData ≠ 0 ∧
        heap'.read sortedData = some sorted ∧
        sorted.Perm [⟨[("n", .num 2)]⟩, ⟨[("n", .num 1)]⟩] ∧
        sorted.length = [DataRow.mk [("n", .num 2)], ⟨[("n", .num 1)]⟩].length :=
  ⟨rfl, getSortedData_clones _ ⟨[[⟨[("n", .num 2)]⟩, ⟨[("n", .num 1)]⟩]]⟩ 0
    [⟨[("n", .num 2)]⟩, ⟨[("n", .num 1)]⟩] "n" "ASC" false rfl⟩

/-! ## Theorems on `tableTranslateWithId` -/

/-- C8: for the id `carbon.table.header.icon.description` and a sort header,
`tableTranslateWithId` returns `i18n.filterAscending` for the direction `NONE`,
`i18n.filterDescending` for `ASC` and `i18n.filterNone` otherwise; for a header that is
not the sort header it returns `i18n.filterAscending`; for every id outside the handled ids
it returns the empty string. -/
theorem tableTranslateWithId_sort_sequence (i18n : TableI18n) (state : TranslateState)
    (id : String) :
    (state.isSortHeader = true → state.sortDirection = "NONE" →
      tableTranslateWithId i18n "carbon.table.header.icon.description" state
        = i18n.filterAscending) ∧
    (state.isSortHeader = true → state.sortDirection = "ASC" →
      tableTranslateWithId i18n "carbon.table.header.icon.description" state
        = i18n.filterDescending) ∧
    (state.isSortHeader = true → state.sortDirection ≠ "NONE" → state.sortDirection ≠ "ASC" →
      tableTranslateWithId i18n "carbon.table.header.icon.description" state
        = i18n.filterNone) ∧
    (state.isSortHeader = false →
      tableTranslateWithId i18n "carbon.table.header.icon.description" state
        = i18n.filterAscending) ∧
    (id ∉ handledTranslationIds → tableTranslateWithId i18n id state = "") := by
  refine ⟨?_, ?_, ?_, ?_, ?_⟩
  · intro h1 h2
    simp [tableTranslateWithId, h1, h2, sortStatesNONE]
  · intro h1 h2
    simp [tableTranslateWithId, h1, h2, sortStatesNONE, sortStatesASC]
  · intro h1 h2 h3
    simp [tableTranslateWithId, h1, h2, h3, sortStatesNONE, sortStatesASC]
  · intro h1
    simp [tableTranslateWithId, h1]
  · intro h
    simp only [handledTranslationIds, List.mem_cons, List.mem_singleton, List.not_mem_nil,
      or_false, not_or] at h
    obtain ⟨h1, h2, h3, h4, h5, h6⟩ := h
    unfold tableTranslateWithId
    split <;> first | rfl | contradiction

/-- Witness for C8: the sort header in the states `NONE`, `ASC` and `DESC`, a header that is
not sorted, and the id `carbon.table.unknown`. -/
theorem tableTranslateWithId_sort_sequence_witness :
    tableTranslateWithId ⟨"c", "items", "item", "l", "p", "asc", "desc", "none"⟩
        "carbon.table.header.icon.description" ⟨0, true, "NONE"⟩ = "asc" ∧
      tableTranslateWithId ⟨"c", "items", "item", "l", "p", "asc", "desc", "none"⟩
        "carbon.table.header.icon.description" ⟨0, true, "ASC"⟩ = "desc" ∧
      tableTranslateWithId ⟨"c", "items", "item", "l", "p", "asc", "desc", "none"⟩
        "carbon.table.header.icon.description" ⟨0, true, "DESC"⟩ = "none" ∧
      tableTranslateWithId ⟨"c", "items", "item", "l", "p", "asc", "desc", "none"⟩
        "carbon.table.header.icon.description" ⟨0, false, "DESC"⟩ = "asc" ∧
      tableTranslateWithId ⟨"c", "items", "item", "l", "p", "asc", "desc", "none"⟩
        "carbon.table.unknown" ⟨0, false, "DESC"⟩ = "" :=
  ⟨(tableTranslateWithId_sort_sequence _ ⟨0, true, "NONE"⟩ "").1 rfl rfl,
   (tableTranslateWithId_sort_sequence _ ⟨0, true, "ASC"⟩ "").2.1 rfl rfl,
   (tableTranslateWithId_sort_sequence _ ⟨0, true, "DESC"⟩ "").2.2.1 rfl (by decide) (by decide),
   (tableTranslateWithId_sort_sequence _ ⟨0, false, "DESC"⟩ "").2.2.2.1 rfl,
   (tableTranslateWithId_sort_sequence _ ⟨0, false, "DESC"⟩ "carbon.table.unknown").2.2.2.2
     (by decide)⟩

/-! ## Theorems on the header row of `TableHead` -/

theorem renderOrderingItem_some_iff (options : TableHeadOptions) (columns : List TableColumn)
    (sort : SortProp) (showExpanderColumn : Bool) (lastVisible : Option Nat)
    (item : OrderingEntry) (columnIndex : Nat) (el : Option HeadElement)
    (h : renderOrderingItem options columns sort showExpanderColumn lastVisible item columnIndex
      = .ok el) :
    (el.filter HeadElement.isTableHeader).toList.length =
      (if (!item.isHidden && columns.any fun column => column.id = item.columnId) then 1
        else 0) ∧
      (∀ e, el = some e → e.isTableHeader = true) := by
  unfold renderOrderingItem at h
  simp only at h
  split at h
  · simp at h
  · cases hfind : columns.find? (fun column => decide (column.id = item.columnId)) with
    | none =>
      rw [hfind] at h
      simp only [Except.ok.injEq] at h
      subst h
      have hany : (columns.any fun column => decide (column.id = item.columnId)) = false := by
        rw [List.find?_eq_none] at hfind
        rw [Bool.eq_false_iff]
        intro hc
        rw [List.any_eq_true] at hc
        obtain ⟨x, hx, hp⟩ := hc
        exact hfind x hx hp
      simp [hany]
    | some col =>
      rw [hfind] at h
      have hany : (columns.any fun column => decide (column.id = item.columnId)) = true := by
        rw [List.any_eq_true]
        exact ⟨col, List.mem_of_find?_eq_some hfind,
          @List.find?_some TableColumn
            (fun column => decide (column.id = item.columnId)) _ _ hfind⟩
      simp only at h
      split at h
      · rename_i hh
        simp only [Except.ok.injEq] at h
        subst h
        simp [hh]
      · rename_i hh
        simp only [Except.ok.injEq] at h
        subst h
        simp [hh, hany, HeadElement.isTableHeader, Option.filter]

theorem renderOrdering_count (options : TableHeadOptions) (columns : List TableColumn)
    (sort : SortProp) (showExpanderColumn : Bool) (lastVisible : Option Nat) :
    ∀ (ordering : List OrderingEntry) (columnIndex : Nat) (els : List (Option HeadElement)),
      renderOrdering options columns sort showExpanderColumn lastVisible ordering columnIndex
        = .ok els →
      countTableHeaders (els.filterMap id) = visibleMatchedCount columns ordering := by
  intro ordering
  induction ordering with
  | nil =>
    intro columnIndex els h
    simp only [renderOrdering, Except.ok.injEq] at h
    subst h
    rfl
  | cons item rest ih =>
    intro columnIndex els h
    unfold renderOrdering at h
    split at h
    · simp at h
    · rename_i el hel
      split at h
      · simp at h
      · rename_i els' hrest
        simp only [Except.ok.injEq] at h
        subst h
        have hcount := ih _ _ hrest
        obtain ⟨h1, h2⟩ := renderOrderingItem_some_iff _ _ _ _ _ _ _ _ hel
        simp only [countTableHeaders, visibleMatchedCount] at hcount ⊢
        cases el with
        | none =>
          simp only [Option.filter, Option.toList, List.length_nil] at h1
          simp only [List.filterMap_cons, id_eq, List.filter_cons]
          split
          · rename_i hc; rw [if_pos hc] at h1; omega
          · exact hcount
        | some e =>
          have he := h2 e rfl
          simp only [Option.filter, he, if_true, Option.toList, List.length_singleton] at h1
          simp only [List.filterMap_cons, id_eq, List.filter_cons, he, if_true,
            List.length_cons]
          split
          · rw [hcount, List.length_cons]
          · rename_i hc; rw [if_neg hc] at h1; omega

/-- Whenever the render of `TableHead` does not throw, the header row holds one `TableHeader`
per ordering entry that is not hidden and matches a column, plus one for the multi-selection
column, one for the expander column and one for the row actions column. -/
theorem tableHeadRow_count (options : TableHeadOptions) (columns : List TableColumn)
    (sort : SortProp) (ordering : List OrderingEntry) (showExpanderColumn : Bool)
    (els : List HeadElement)
    (h : tableHeadRow options columns sort ordering showExpanderColumn = .ok els) :
    countTableHeaders els =
      visibleMatchedCount columns ordering +
        (if options.hasRowSelection = .multi then 1 else 0) +
        (if showExpanderColumn then 1 else 0) +
        (if options.hasRowActions then 1 else 0) := by
  unfold tableHeadRow at h
  split at h
  · simp at h
  · rename_i items hitems
    simp only [Except.ok.injEq] at h
    subst h
    have hcount := renderOrdering_count _ _ _ _ _ _ _ _ hitems
    simp only [countTableHeaders] at hcount ⊢
    simp only [List.filter_append, List.length_append, hcount]
    have e1 : (List.filter HeadElement.isTableHeader
        (if options.hasRowExpansion || options.hasRowNesting then
          [HeadElement.tableExpandHeader] else [])).length = 0 := by
      split <;> rfl
    have e2 : (List.filter HeadElement.isTableHeader
        (if options.hasRowSelection = .multi then [HeadElement.selectionHeader]
          else [])).length = (if options.hasRowSelection = .multi then 1 else 0) := by
      split <;> rfl
    have e3 : (List.filter HeadElement.isTableHeader
        (if showExpanderColumn then [HeadElement.expanderHeader] else [])).length =
        (if showExpanderColumn then 1 else 0) := by
      split <;> rfl
    have e4 : (List.filter HeadElement.isTableHeader
        (if options.hasRowActions then [HeadElement.rowActionsHeader] else [])).length =
        (if options.hasRowActions then 1 else 0) := by
      split <;> rfl
    rw [e1, e2, e3, e4]
    omega

/-- C10 (failing input): with `hasMultiSort`, the sort `[{ columnId: 'col1', direction:
'ASC' }]`, the column `col1` and the ordering `col1`, `ghost`, the render throws a TypeError
(`matchingColumnMeta.id` of an undefined `matchingColumnMeta`) although one ordering entry is
visible and matches a column, so one `TableHeader` is due. -/
theorem tableHeadRow_multiSort_unmatched :
    tableHeadRow ⟨false, false, .off, false, false, true⟩
        [⟨"col1", "Column 1", false, none, none, none⟩]
        (.multi [⟨"col1", "ASC"⟩]) [⟨"col1", false⟩, ⟨"ghost", false⟩] false
        = .error .typeError ∧
      visibleMatchedCount [⟨"col1", "Column 1", false, none, none, none⟩]
        [⟨"col1", false⟩, ⟨"ghost", false⟩] = 1 := by
  constructor <;> rfl

theorem renderOrderingItem_ok (options : TableHeadOptions) (columns : List TableColumn)
    (sort : SortProp) (showExpanderColumn : Bool) (lastVisible : Option Nat)
    (item : OrderingEntry) (columnIndex : Nat)
    (h : options.hasMultiSort = false ∨ (∀ s l, sort ≠ .multi (s :: l)) ∨
      ∃ col ∈ columns, col.id = item.columnId) :
    ∃ el, renderOrderingItem options columns sort showExpanderColumn lastVisible item
      columnIndex = .ok el := by
  have hsort : ∀ l, sort = .multi l → options.hasMultiSort = true →
      ∃ k, sortFindIndex l (columns.find? fun column => decide (column.id = item.columnId))
        = .ok k := by
    intro l hl hm
    cases l with
    | nil =>
      cases columns.find? (fun column => decide (column.id = item.columnId)) <;>
        exact ⟨_, rfl⟩
    | cons s l =>
      rcases h with h | h | ⟨col, hcol, hid⟩
      · rw [h] at hm; cases hm
      · exact absurd hl (h s l)
      · cases hfind : columns.find? (fun column => decide (column.id = item.columnId)) with
        | none =>
          rw [List.find?_eq_none] at hfind
          exact absurd (by simpa using hid) (hfind col hcol)
        | some c => exact ⟨_, rfl⟩
  unfold renderOrderingItem
  simp only
  cases sort with
  | single s => simp only []; split <;> (try split) <;> exact ⟨_, rfl⟩
  | missing => simp only []; split <;> (try split) <;> exact ⟨_, rfl⟩
  | multi l =>
    cases hm : options.hasMultiSort with
    | false => simp only [Bool.false_eq_true, if_false]; split <;> (try split) <;> exact ⟨_, rfl⟩
    | true =>
      obtain ⟨k, hk⟩ := hsort l rfl hm
      simp only [if_true, hk]
      split <;> (try split) <;> exact ⟨_, rfl⟩

theorem renderOrdering_ok (options : TableHeadOptions) (columns : List TableColumn)
    (sort : SortProp) (showExpanderColumn : Bool) (lastVisible : Option Nat) :
    ∀ (ordering : List OrderingEntry) (columnIndex : Nat),
      (options.hasMultiSort = false ∨ (∀ s l, sort ≠ .multi (s :: l)) ∨
        ∀ item ∈ ordering, ∃ col ∈ columns, col.id = item.columnId) →
      ∃ els, renderOrdering options columns sort showExpanderColumn lastVisible ordering
        columnIndex = .ok els := by
  intro ordering
  induction ordering with
  | nil => intro columnIndex _; exact ⟨[], rfl⟩
  | cons item rest ih =>
    intro columnIndex h
    obtain ⟨el, hel⟩ := renderOrderingItem_ok options columns sort showExpanderColumn
      lastVisible item columnIndex
      (by
        rcases h with h | h | h
        · exact Or.inl h
        · exact Or.inr (Or.inl h)
        · exact Or.inr (Or.inr (h item (by simp))))
    obtain ⟨els, hels⟩ := ih (columnIndex + 1)
      (by
        rcases h with h | h | h
        · exact Or.inl h
        · exact Or.inr (Or.inl h)
        · exact Or.inr (Or.inr (fun i hi => h i (by simp [hi]))))
    unfold renderOrdering
    rw [hel]
    simp only
    rw [hels]
    exact ⟨_, rfl⟩

/-- The render of the header row does not throw when multi-sort is off, or `sort` is not a
non-empty array, or every ordering entry matches a column. -/
theorem tableHeadRow_ok (options : TableHeadOptions) (columns : List TableColumn)
    (sort : SortProp) (ordering : List OrderingEntry) (showExpanderColumn : Bool)
    (h : options.hasMultiSort = false ∨ (∀ s l, sort ≠ .multi (s :: l)) ∨
      ∀ item ∈ ordering, ∃ col ∈ columns, col.id = item.columnId) :
    ∃ els, tableHeadRow options columns sort ordering showExpanderColumn = .ok els := by
  obtain ⟨els, hels⟩ := renderOrdering_ok options columns sort showExpanderColumn
    (lastVisibleColumn ordering) ordering 0 h
  unfold tableHeadRow
  rw [hels]
  exact ⟨_, rfl⟩

/-! ## Theorems on the order of the entries of `getLayout` -/

theorem findSlot_forward (cols w h : Nat) (grid : Grid) :
    ∀ (fuel currX currY : Nat),
      (∀ x y, findSlot cols w h grid fuel currX currY = .found x y →
        currY < y ∨ (currY = y ∧ currX ≤ x)) ∧
      (∀ x y, findSlot cols w h grid fuel currX currY = .gaveUp x y → currY < y) := by
  intro fuel
  induction fuel with
  | zero => intro currX currY; simp [findSlot]
  | succ fuel ih =>
    intro currX currY
    unfold findSlot
    split
    · simp
    · refine ⟨?_, by simp⟩
      intro x y hxy
      simp only [SlotSearch.found.injEq] at hxy
      omega
    · split
      · split
        · refine ⟨by simp, ?_⟩
          intro x y hxy
          simp only [SlotSearch.gaveUp.injEq] at hxy
          omega
        · obtain ⟨h1, h2⟩ := ih 0 (currY + 1)
          refine ⟨fun x y hxy => ?_, fun x y hxy => ?_⟩
          · have := h1 x y hxy; omega
          · have := h2 x y hxy; omega
      · obtain ⟨h1, h2⟩ := ih (currX + 1) currY
        refine ⟨fun x y hxy => ?_, fun x y hxy => ?_⟩
        · have := h1 x y hxy; omega
        · exact h2 x y hxy

theorem layoutCard_forward (layoutName : String) (cols : Nat)
    (cardDimensions : String → String → Option Dimensions) (card : Card) (index : Nat)
    (st st' : LayoutState) (item : Option LayoutItem)
    (hstep : layoutCard layoutName cols cardDimensions card index st = .ok (item, st')) :
    cursorAtOrBefore st.currX st.currY st'.currX st'.currY ∧
      ∀ e, item = some e →
        e.i = card.id ∧ cursorAtOrBefore st.currX st.currY e.x e.y ∧
          st'.currX = e.x + e.w ∧ st'.currY = e.y := by
  unfold layoutCard at hstep
  split at hstep
  · simp at hstep
  · rename_i d hd
    obtain ⟨hf, hg⟩ := findSlot_forward cols d.w d.h st.grid (slotFuel cols) st.currX st.currY
    split at hstep
    · simp at hstep
    · rename_i x y hgave
      simp only [Except.ok.injEq, Prod.mk.injEq] at hstep
      obtain ⟨h1, h2⟩ := hstep
      subst h1; subst h2
      exact ⟨Or.inl (hg x y hgave), by simp⟩
    · rename_i x y hfound
      split at hstep
      · simp at hstep
      · rename_i grid' hplace
        simp only [Except.ok.injEq, Prod.mk.injEq] at hstep
        obtain ⟨h1, h2⟩ := hstep
        subst h1; subst h2
        have := hf x y hfound
        refine ⟨?_, ?_⟩
        · simp only [cursorAtOrBefore]; omega
        · intro e he
          simp only [Option.some.injEq] at he
          subst he
          exact ⟨rfl, this, rfl, rfl⟩

theorem layoutCards_forward (layoutName : String) (cols : Nat)
    (cardDimensions : String → String → Option Dimensions) :
    ∀ (cards : List Card) (index : Nat) (st : LayoutState)
      (items : List (Option LayoutItem)),
      layoutCards layoutName cols cardDimensions cards index st = .ok items →
        (∀ e ∈ items.filterMap id, cursorAtOrBefore st.currX st.currY e.x e.y) ∧
          (items.filterMap id).Pairwise placedAfter ∧
          ((items.filterMap id).map fun e => e.i).Sublist (cards.map fun c => c.id) := by
  intro cards
  induction cards with
  | nil =>
    intro index st items h
    simp only [layoutCards, Except.ok.injEq] at h
    subst h
    simp
  | cons card rest ih =>
    intro index st items h
    unfold layoutCards at h
    split at h
    · simp at h
    · rename_i item st' hstep
      split at h
      · simp at h
      · rename_i items' hrest
        simp only [Except.ok.injEq] at h
        subst h
        obtain ⟨hcur, hitem⟩ := layoutCard_forward _ _ _ _ _ _ _ _ hstep
        obtain ⟨hall, hpw, hsub⟩ := ih _ _ _ hrest
        have hmono : ∀ e ∈ items'.filterMap id, cursorAtOrBefore st.currX st.currY e.x e.y := by
          intro e he
          have := hall e he
          simp only [cursorAtOrBefore] at this hcur ⊢
          omega
        cases item with
        | none =>
          simp only [List.filterMap_cons, id_eq, List.map_cons]
          exact ⟨hmono, hpw, hsub.cons _⟩
        | some e =>
          obtain ⟨hid, hpos, hx, hy⟩ := hitem e rfl
          simp only [List.filterMap_cons, id_eq, List.map_cons, List.mem_cons,
            List.pairwise_cons]
          refine ⟨?_, ⟨?_, hpw⟩, ?_⟩
          · intro b hb
            rcases hb with rfl | hb
            · exact hpos
            · exact hmono b hb
          · intro b hb
            have := hall b hb
            simp only [cursorAtOrBefore, hx, hy] at this
            simp only [placedAfter]
            omega
          · rw [hid]
            exact hsub.cons₂ _

theorem placedAfter_lex (a b : LayoutItem) (h : placedAfter a b) :
    a.y < b.y ∨ (a.y = b.y ∧ a.x ≤ b.x) := by
  simp only [placedAfter] at h
  omega

/-- C14: whenever `getLayout` returns a layout, its entries appear in card order (their ids
are a subsequence of the cards' ids), every later entry lies at or after the `(y, x + w)` of
every earlier one in row-major order, and so the positions `(y, x)` are lexicographically
non-decreasing: a gap before an earlier card is never filled by a later card. -/
theorem getLayout_forward_order (layoutName : String) (cards : List Card)
    (dashboardColumns : String → Nat)
    (cardDimensions : String → String → Option Dimensions) (layout : List LayoutItem)
    (h : getLayout layoutName cards dashboardColumns cardDimensions = .ok layout) :
    (layout.map fun e => e.i).Sublist (cards.map fun c => c.id) ∧
      layout.Pairwise placedAfter ∧
      layout.Pairwise (fun a b => a.y < b.y ∨ (a.y = b.y ∧ a.x ≤ b.x)) := by
  unfold getLayout at h
  split at h
  · simp at h
  · rename_i items hitems
    simp only [Except.ok.injEq] at h
    subst h
    obtain ⟨-, hpw, hsub⟩ := layoutCards_forward _ _ _ _ _ _ _ hitems
    exact ⟨hsub, hpw, hpw.imp (fun {a b} hab => placedAfter_lex a b hab)⟩

set_option maxRecDepth 100000 in
/-- Witness for C14: a small card, a wide card and two more small cards on four columns; the
two free cells beside the first card stay free. -/
theorem getLayout_forward_order_witness :
    getLayout "lg" [⟨"a", "SMALL"⟩, ⟨"b", "WIDE"⟩, ⟨"c", "SMALL"⟩, ⟨"d", "SMALL"⟩] (fun _ => 4)
        (fun size _ => if size = "SMALL" then some ⟨2, 1⟩ else some ⟨4, 2⟩) =
        .ok [⟨"a", 0, 0, 2, 1⟩, ⟨"b", 0, 1, 4, 2⟩, ⟨"c", 0, 3, 2, 1⟩, ⟨"d", 2, 3, 2, 1⟩] ∧
      [LayoutItem.mk "a" 0 0 2 1, ⟨"b", 0, 1, 4, 2⟩, ⟨"c", 0, 3, 2, 1⟩,
        ⟨"d", 2, 3, 2, 1⟩].Pairwise placedAfter :=
  ⟨rfl, (getLayout_forward_order "lg"
    [⟨"a", "SMALL"⟩, ⟨"b", "WIDE"⟩, ⟨"c", "SMALL"⟩, ⟨"d", "SMALL"⟩] (fun _ => 4)
    (fun size _ => if size = "SMALL" then some ⟨2, 1⟩ else some ⟨4, 2⟩) _ rfl).2.1⟩

/-! ## Theorems on the resize handles of `TableHead` -/

theorem lastVisible_cons (n : Nat) (item : OrderingEntry) (rest : List OrderingEntry) :
    ((((item :: rest).enumFrom n).filter fun p => !p.2.isHidden).getLast?).map Prod.fst =
      match (((rest.enumFrom (n + 1)).filter fun p => !p.2.isHidden).getLast?).map
          Prod.fst with
      | some k => some k
      | none => if item.isHidden then none else some n := by
  simp only [List.enumFrom_cons, List.filter_cons]
  cases hh : item.isHidden with
  | true => 
    simp only [Bool.not_true, Bool.false_eq_true, if_false, if_true]
    cases (((rest.enumFrom (n + 1)).filter fun p => !p.2.isHidden).getLast?).map Prod.fst <;> rfl
  | false =>
    simp only [Bool.not_false, if_true, List.getLast?_cons, Bool.false_eq_true, if_false]
    cases ((rest.enumFrom (n + 1)).filter fun p => !p.2.isHidden).getLast? <;> rfl

theorem lastVisible_from (ordering : List OrderingEntry) :
    ∀ n, 
      (∀ k, (((ordering.enumFrom n).filter fun p => !p.2.isHidden).getLast?).map Prod.fst
          = some k → n ≤ k ∧ IsLastVisible ordering (k - n)) ∧
      ((((ordering.enumFrom n).filter fun p => !p.2.isHidden).getLast?).map Prod.fst = none →
        ∀ item ∈ ordering, item.isHidden = true) := by
  induction ordering with
  | nil =>
    intro n
    simp
  | cons item rest ih =>
    intro n
    obtain ⟨ih1, ih2⟩ := ih (n + 1)
    rw [lastVisible_cons]
    cases hrest : (((rest.enumFrom (n + 1)).filter fun p => !p.2.isHidden).getLast?).map
        Prod.fst with
    | some k' =>
      obtain ⟨hle, it, hit, hvis, hafter⟩ := ih1 k' hrest
      simp only [Option.some.injEq, reduceCtorEq, false_implies, and_true]
      intro k hk
      subst hk
      refine ⟨by omega, it, ?_, hvis, ?_⟩
      · have e : k' - n = (k' - (n + 1)) + 1 := by omega
        rw [e, List.getElem?_cons_succ]
        exact hit
      · intro j item' hj hitem'
        obtain ⟨j', rfl⟩ : ∃ j', j = j' + 1 := ⟨j - 1, by omega⟩
        rw [List.getElem?_cons_succ] at hitem'
        exact hafter j' item' (by omega) hitem'
    | none =>
      have hall := ih2 hrest
      cases hh : item.isHidden with
      | true =>
        simp only [if_true, reduceCtorEq, false_implies, implies_true, true_and,
          List.mem_cons]
        rintro - it (rfl | hit)
        · exact hh
        · exact hall it hit
      | false =>
        simp only [Bool.false_eq_true, if_false, Option.some.injEq, reduceCtorEq,
          false_implies, and_true]
        intro k hk
        subst hk
        refine ⟨le_refl _, item, by simp, hh, ?_⟩
        intro j item' hj hitem'
        obtain ⟨j', rfl⟩ : ∃ j', j = j' + 1 := ⟨j - 1, by omega⟩
        rw [List.getElem?_cons_succ] at hitem'
        exact hall item' (List.getElem?_mem hitem')

theorem lastVisibleColumn_iff (ordering : List OrderingEntry) (k : Nat) :
    lastVisibleColumn ordering = some k ↔ IsLastVisible ordering k := by
  obtain ⟨h1, h2⟩ := lastVisible_from ordering 0
  constructor
  · intro h
    exact (h1 k h).2
  · rintro ⟨item, hitem, hvis, hafter⟩
    cases hlv : lastVisibleColumn ordering with
    | none =>
      have := h2 hlv item (List.getElem?_mem hitem)
      rw [hvis] at this
      cases this
    | some k' =>
      obtain ⟨-, item', hitem', hvis', hafter'⟩ := h1 k' hlv
      simp only [Nat.sub_zero] at hitem' hafter'
      rcases Nat.lt_trichotomy k k' with hlt | heq | hgt
      · have := hafter k' item' hlt hitem'
        rw [hvis'] at this
        cases this
      · rw [heq]
      · have := hafter' k item hgt hitem
        rw [hvis] at this
        cases this

theorem renderOrderingItem_handle (options : TableHeadOptions) (columns : List TableColumn)
    (sort : SortProp) (showExpanderColumn : Bool) (lastVisible : Option Nat)
    (item : OrderingEntry) (columnIndex : Nat) (el : Option HeadElement)
    (h : renderOrderingItem options columns sort showExpanderColumn lastVisible item columnIndex
      = .ok el) :
    (isRenderedEntry columns item = false → el = none) ∧
      (isRenderedEntry columns item = true →
        ∃ hd, el = some (.columnHeader hd) ∧ hd.columnId = item.columnId ∧
          hd.hasColumnResize =
            (options.hasResize &&
              (decide (some columnIndex ≠ lastVisible) || showExpanderColumn))) := by
  unfold renderOrderingItem at h
  simp only at h
  split at h
  · simp at h
  · cases hfind : columns.find? (fun column => decide (column.id = item.columnId)) with
    | none =>
      rw [hfind] at h
      simp only [Except.ok.injEq] at h
      subst h
      have hany : (columns.any fun column => decide (column.id = item.columnId)) = false := by
        rw [List.find?_eq_none] at hfind
        rw [Bool.eq_false_iff]
        intro hc
        rw [List.any_eq_true] at hc
        obtain ⟨x, hx, hp⟩ := hc
        exact hfind x hx hp
      simp [isRenderedEntry, hany]
    | some col =>
      rw [hfind] at h
      have hany : (columns.any fun column => decide (column.id = item.columnId)) = true := by
        rw [List.any_eq_true]
        exact ⟨col, List.mem_of_find?_eq_some hfind,
          @List.find?_some TableColumn
            (fun column => decide (column.id = item.columnId)) _ _ hfind⟩
      have hid : col.id = item.columnId := by
        simpa using @List.find?_some TableColumn
          (fun column => decide (column.id = item.columnId)) _ _ hfind
      simp only at h
      split at h
      · rename_i hh
        simp only [Except.ok.injEq] at h
        subst h
        simp [isRenderedEntry, hh]
      · rename_i hh
        simp only [Except.ok.injEq] at h
        subst h
        simp [isRenderedEntry, hh, hany, hid]

theorem renderOrdering_aligned (options : TableHeadOptions) (columns : List TableColumn)
    (sort : SortProp) (showExpanderColumn : Bool) (lastVisible : Option Nat) :
    ∀ (ordering : List OrderingEntry) (columnIndex : Nat) (els : List (Option HeadElement)),
      renderOrdering options columns sort showExpanderColumn lastVisible ordering columnIndex
        = .ok els →
      els.length = ordering.length ∧
        ∀ k item, ordering[k]? = some item →
          ∃ el, els[k]? = some el ∧
            renderOrderingItem options columns sort showExpanderColumn lastVisible item
              (columnIndex + k) = .ok el := by
  intro ordering
  induction ordering with
  | nil =>
    intro columnIndex els h
    simp only [renderOrdering, Except.ok.injEq] at h
    subst h
    simp
  | cons item rest ih =>
    intro columnIndex els h
    unfold renderOrdering at h
    split at h
    · simp at h
    · rename_i el hel
      split at h
      · simp at h
      · rename_i els' hrest
        simp only [Except.ok.injEq] at h
        subst h
        obtain ⟨hlen, hidx⟩ := ih _ _ hrest
        refine ⟨by simp [hlen], ?_⟩
        intro k it hk
        cases k with
        | zero =>
          simp only [List.getElem?_cons_zero, Option.some.injEq] at hk
          subst hk
          exact ⟨el, by simp, hel⟩
        | succ k =>
          rw [List.getElem?_cons_succ] at hk
          obtain ⟨e, he1, he2⟩ := hidx k it hk
          refine ⟨e, by simpa using he1, ?_⟩
          have : columnIndex + (k + 1) = columnIndex + 1 + k := by omega
          rw [this]
          exact he2

theorem renderOrdering_handles (options : TableHeadOptions) (columns : List TableColumn)
    (sort : SortProp) (lastVisible : Option Nat) (hres : options.hasResize = true) :
    ∀ (ordering : List OrderingEntry) (columnIndex : Nat) (els : List (Option HeadElement)),
      renderOrdering options columns sort false lastVisible ordering columnIndex = .ok els →
      countResizeHandles (els.filterMap id) +
          handlesLeftOut columns lastVisible ordering columnIndex =
        visibleMatchedCount columns ordering := by
  intro ordering
  induction ordering with
  | nil =>
    intro columnIndex els h
    simp only [renderOrdering, Except.ok.injEq] at h
    subst h
    rfl
  | cons item rest ih =>
    intro columnIndex els h
    unfold renderOrdering at h
    split at h
    · simp at h
    · rename_i el hel
      split at h
      · simp at h
      · rename_i els' hrest
        simp only [Except.ok.injEq] at h
        subst h
        have hcount := ih _ _ hrest
        obtain ⟨h1, h2⟩ := renderOrderingItem_handle _ _ _ _ _ _ _ _ hel
        simp only [countResizeHandles, visibleMatchedCount, handlesLeftOut] at hcount ⊢
        cases hr : isRenderedEntry columns item with
        | false =>
          have hnone := h1 hr
          subst hnone
          have hr' : (!item.isHidden &&
              columns.any fun column => decide (column.id = item.columnId)) = false := hr
          simp only [List.filterMap_cons, id_eq, List.filter_cons, hr', Bool.false_eq_true,
            if_false, and_false, Nat.zero_add]
          exact hcount
        | true =>
          obtain ⟨hd, hel', -, hhandle⟩ := h2 hr
          subst hel'
          have hr' : (!item.isHidden &&
              columns.any fun column => decide (column.id = item.columnId)) = true := hr
          by_cases hlv : lastVisible = some columnIndex
          · have hdec : decide (some columnIndex ≠ lastVisible) = false := by
              simp [hlv]
            simp only [List.filterMap_cons, id_eq, List.filter_cons, hr', if_true,
              List.length_cons, HeadElement.hasColumnResize, hhandle, hres, Bool.true_and,
              Bool.or_false, and_true, hdec, Bool.false_eq_true, if_false]
            rw [if_pos hlv]
            omega
          · have hdec : decide (some columnIndex ≠ lastVisible) = true := by
              simp only [decide_eq_true_eq]
              exact fun e => hlv e.symm
            simp only [List.filterMap_cons, id_eq, List.filter_cons, hr', if_true,
              List.length_cons, HeadElement.hasColumnResize, hhandle, hres, Bool.true_and,
              Bool.or_false, and_true, hdec]
            rw [if_neg hlv]
            omega

theorem handlesLeftOut_before (columns : List TableColumn) (k : Nat) :
    ∀ (ordering : List OrderingEntry) (columnIndex : Nat), k < columnIndex →
      handlesLeftOut columns (some k) ordering columnIndex = 0 := by
  intro ordering
  induction ordering with
  | nil => intro columnIndex _; rfl
  | cons item rest ih =>
    intro columnIndex hlt
    have hne : ¬ (some k = some columnIndex ∧ isRenderedEntry columns item = true) := by
      rintro ⟨e, -⟩
      simp only [Option.some.injEq] at e
      omega
    simp only [handlesLeftOut, hne, if_false, Nat.zero_add]
    exact ih (columnIndex + 1) (by omega)

theorem handlesLeftOut_at (columns : List TableColumn) (k : Nat) :
    ∀ (ordering : List OrderingEntry) (columnIndex : Nat) (item : OrderingEntry),
      columnIndex ≤ k → ordering[k - columnIndex]? = some item →
      isRenderedEntry columns item = true →
      handlesLeftOut columns (some k) ordering columnIndex = 1 := by
  intro ordering
  induction ordering with
  | nil => intro columnIndex item _ h; simp at h
  | cons hd rest ih =>
    intro columnIndex item hle hitem hr
    by_cases hk : k = columnIndex
    · subst hk
      simp only [Nat.sub_self, List.getElem?_cons_zero, Option.some.injEq] at hitem
      subst hitem
      simp only [handlesLeftOut, hr, and_self, if_true]
      rw [handlesLeftOut_before columns k rest (k + 1) (by omega)]
    · have hne : ¬ (some k = some columnIndex ∧ isRenderedEntry columns hd = true) := by
        rintro ⟨e, -⟩
        simp only [Option.some.injEq] at e
        exact hk e
      have e : k - columnIndex = (k - (columnIndex + 1)) + 1 := by omega
      rw [e, List.getElem?_cons_succ] at hitem
      simp only [handlesLeftOut, hne, if_false, Nat.zero_add]
      exact ih (columnIndex + 1) item (by omega) hitem hr

theorem countResizeHandles_row (options : TableHeadOptions) (showExpanderColumn : Bool)
    (cells : List HeadElement) :
    countResizeHandles
        ((if options.hasRowExpansion || options.hasRowNesting then
            [HeadElement.tableExpandHeader] else []) ++
          (if options.hasRowSelection = .multi then [HeadElement.selectionHeader] else []) ++
          cells ++
          (if showExpanderColumn then [HeadElement.expanderHeader] else []) ++
          (if options.hasRowActions then [HeadElement.rowActionsHeader] else [])) =
      countResizeHandles cells := by
  have e1 : (List.filter HeadElement.hasColumnResize
      (if options.hasRowExpansion || options.hasRowNesting then
        [HeadElement.tableExpandHeader] else [])).length = 0 := by
    split <;> rfl
  have e2 : (List.filter HeadElement.hasColumnResize
      (if options.hasRowSelection = .multi then [HeadElement.selectionHeader]
        else [])).length = 0 := by
    split <;> rfl
  have e3 : (List.filter HeadElement.hasColumnResize
      (if showExpanderColumn then [HeadElement.expanderHeader] else [])).length = 0 := by
    split <;> rfl
  have e4 : (List.filter HeadElement.hasColumnResize
      (if options.hasRowActions then [HeadElement.rowActionsHeader] else [])).length = 0 := by
    split <;> rfl
  simp only [countResizeHandles, List.filter_append, List.length_append, e1, e2, e3, e4]
  omega

/-- For an array `ordering` of distinct objects: whenever the render function of `TableHead`
returns, the column headers of the row are those of the ordering entries that are not
hidden and match a column, in order; such a column gets a `ColumnResize` handle if and only
if `hasResize` is true and (its ordering entry is not the last entry of `ordering` that is
not hidden, or `showExpanderColumn` is true); hence with `hasResize`, no expander column,
every entry that is not hidden matching a column and `n >= 1` visible columns, the row
holds exactly `n - 1` handles. -/
theorem tableHead_resize_handles (options : TableHeadOptions) (columns : List TableColumn)
    (sort : SortProp) (ordering : List OrderingEntry) (showExpanderColumn : Bool)
    (row : List HeadElement)
    (h : tableHeadRow options columns sort ordering showExpanderColumn = .ok row) :
    ∃ els : List (Option HeadElement),
      row =
        (if options.hasRowExpansion || options.hasRowNesting then
            [HeadElement.tableExpandHeader] else []) ++
          (if options.hasRowSelection = .multi then [HeadElement.selectionHeader] else []) ++
          els.filterMap id ++
          (if showExpanderColumn then [HeadElement.expanderHeader] else []) ++
          (if options.hasRowActions then [HeadElement.rowActionsHeader] else []) ∧
      els.length = ordering.length ∧
      (∀ k item, ordering[k]? = some item →
        (isRenderedEntry columns item = false → els[k]? = some none) ∧
        (isRenderedEntry columns item = true →
          ∃ hd, els[k]? = some (some (.columnHeader hd)) ∧ hd.columnId = item.columnId ∧
            (hd.hasColumnResize = true ↔
              options.hasResize = true ∧
                (¬ IsLastVisible ordering k ∨ showExpanderColumn = true)))) ∧
      (options.hasResize = true → showExpanderColumn = false →
        (∀ item ∈ ordering, item.isHidden = false →
          ∃ col ∈ columns, col.id = item.columnId) →
        1 ≤ visibleMatchedCount columns ordering →
        countResizeHandles row = visibleMatchedCount columns ordering - 1) := by
  unfold tableHeadRow at h
  split at h
  · simp at h
  · rename_i els hels
    simp only [Except.ok.injEq] at h
    subst h
    obtain ⟨hlen, hidx⟩ := renderOrdering_aligned _ _ _ _ _ _ _ _ hels
    refine ⟨els, rfl, hlen, ?_, ?_⟩
    · intro k item hitem
      obtain ⟨el, hel, hrender⟩ := hidx k item hitem
      rw [Nat.zero_add] at hrender
      obtain ⟨h1, h2⟩ := renderOrderingItem_handle _ _ _ _ _ _ _ _ hrender
      refine ⟨fun hr => ?_, fun hr => ?_⟩
      · rw [hel, h1 hr]
      · obtain ⟨hd, hhd, hid, hhandle⟩ := h2 hr
        refine ⟨hd, by rw [hel, hhd], hid, ?_⟩
        rw [hhandle, ← lastVisibleColumn_iff]
        simp only [Bool.and_eq_true, Bool.or_eq_true, decide_eq_true_eq, ne_eq]
        constructor
        · rintro ⟨a, b | b⟩
          · exact ⟨a, Or.inl fun e => b e.symm⟩
          · exact ⟨a, Or.inr b⟩
        · rintro ⟨a, b | b⟩
          · exact ⟨a, Or.inl fun e => b e.symm⟩
          · exact ⟨a, Or.inr b⟩
    · intro hres hexp hmatched hn
      subst hexp
      rw [countResizeHandles_row]
      have hcount := renderOrdering_handles options columns sort (lastVisibleColumn ordering)
        hres ordering 0 els hels
      obtain ⟨hsome, hnone⟩ := lastVisible_from ordering 0
      have hex : ∃ item ∈ ordering, item.isHidden = false := by
        simp only [visibleMatchedCount] at hn
        obtain ⟨item, hmem⟩ := List.exists_mem_of_length_pos hn
        rw [List.mem_filter] at hmem
        refine ⟨item, hmem.1, ?_⟩
        have := hmem.2
        simp only [Bool.and_eq_true, Bool.not_eq_true'] at this
        exact this.1
      cases hlv : lastVisibleColumn ordering with
      | none =>
        obtain ⟨item, hmem, hvis⟩ := hex
        have := hnone hlv item hmem
        rw [hvis] at this
        cases this
      | some k =>
        obtain ⟨-, item, hitem, hvis, -⟩ := hsome k hlv
        obtain ⟨col, hcol, hid⟩ := hmatched item (List.getElem?_mem hitem) hvis
        have hr : isRenderedEntry columns item = true := by
          simp only [isRenderedEntry, hvis, Bool.not_false, Bool.true_and, List.any_eq_true,
            decide_eq_true_eq]
          exact ⟨col, hcol, hid⟩
        rw [hlv] at hcount
        rw [handlesLeftOut_at columns k ordering 0 item (Nat.zero_le _) hitem hr] at hcount
        omega

/-- An instance of the above: the three visible columns of the tests with `hasResize`; the
first two get a handle. -/
theorem tableHead_resize_handles_witness :
    tableHeadRow ⟨false, false, .off, false, true, false⟩
        [⟨"col1", "Column 1", false, none, none, none⟩,
          ⟨"col2", "Column 2", false, none, none, none⟩,
          ⟨"col3", "Column 3", true, some "start", none, none⟩]
        (.single ⟨"col3", "ASC"⟩)
        [⟨"col1", false⟩, ⟨"col2", false⟩, ⟨"col3", false⟩] false =
      .ok [.columnHeader ⟨"col1", false, "NONE", -1, "start", false, true⟩,
        .columnHeader ⟨"col2", false, "NONE", -1, "start", false, true⟩,
        .columnHeader ⟨"col3", true, "ASC", -1, "start", false, false⟩] ∧
      countResizeHandles [.columnHeader ⟨"col1", false, "NONE", -1, "start", false, true⟩,
        .columnHeader ⟨"col2", false, "NONE", -1, "start", false, true⟩,
        .columnHeader ⟨"col3", true, "ASC", -1, "start", false, false⟩] =
      visibleMatchedCount [⟨"col1", "Column 1", false, none, none, none⟩,
          ⟨"col2", "Column 2", false, none, none, none⟩,
          ⟨"col3", "Column 3", true, some "start", none, none⟩]
        [⟨"col1", false⟩, ⟨"col2", false⟩, ⟨"col3", false⟩] - 1 :=
  ⟨rfl, by
    obtain ⟨els, -, -, -, hcount⟩ := tableHead_resize_handles
      ⟨false, false, .off, false, true, false⟩
      [⟨"col1", "Column 1", false, none, none, none⟩,
        ⟨"col2", "Column 2", false, none, none, none⟩,
        ⟨"col3", "Column 3", true, some "start", none, none⟩]
      (.single ⟨"col3", "ASC"⟩)
      [⟨"col1", false⟩, ⟨"col2", false⟩, ⟨"col3", false⟩] false _ rfl
    exact hcount rfl rfl (by decide) (by decide)⟩

/-! ## Theorems on the mount of `TableHead` -/

theorem lastVisibleObject_distinct (ordering : List OrderingEntry) (n : Nat) :
    lastVisibleObject (distinctObjectsFrom n ordering) =
      (((ordering.enumFrom n).filter fun p => !p.2.isHidden).getLast?).map Prod.fst := by
  simp only [lastVisibleObject, distinctObjectsFrom, List.filter_map, List.getLast?_map,
    Option.map_map]
  rfl

theorem renderOrderingObjects_distinct (options : TableHeadOptions)
    (columns : List TableColumn) (sort : SortProp) (showExpanderColumn : Bool)
    (lastVisible : Option Nat) :
    ∀ (ordering : List OrderingEntry) (n : Nat),
      renderOrderingObjects options columns sort showExpanderColumn lastVisible
          (distinctObjectsFrom n ordering) =
        renderOrdering options columns sort showExpanderColumn lastVisible ordering n := by
  intro ordering
  induction ordering with
  | nil => intro n; rfl
  | cons item rest ih =>
    intro n
    have hcons : distinctObjectsFrom n (item :: rest) =
        ⟨n, item⟩ :: distinctObjectsFrom (n + 1) rest := rfl
    rw [hcons, renderOrderingObjects, renderOrdering, ih (n + 1)]
    rfl

/-- On an array of distinct objects, each named by its place, the render on entry objects
is `tableHeadRow`. -/
theorem tableHeadRowObjects_distinct (options : TableHeadOptions) (columns : List TableColumn)
    (sort : SortProp) (ordering : List OrderingEntry) (showExpanderColumn : Bool) :
    tableHeadRowObjects options columns sort (distinctObjects ordering) showExpanderColumn =
      tableHeadRow options columns sort ordering showExpanderColumn := by
  unfold tableHeadRowObjects tableHeadRow distinctObjects lastVisibleColumn
  rw [lastVisibleObject_distinct, renderOrderingObjects_distinct]
  rfl

theorem renderOrderingObjects_aligned (options : TableHeadOptions)
    (columns : List TableColumn) (sort : SortProp) (showExpanderColumn : Bool)
    (lastVisible : Option ObjectRef) :
    ∀ (ordering : List OrderingObject) (els : List (Option HeadElement)),
      renderOrderingObjects options columns sort showExpanderColumn lastVisible ordering
        = .ok els →
      els.length = ordering.length ∧
        ∀ (k : Nat) (item : OrderingObject), ordering[k]? = some item →
          ∃ el, els[k]? = some el ∧
            renderOrderingObject options columns sort showExpanderColumn lastVisible item
              = .ok el := by
  intro ordering
  induction ordering with
  | nil =>
    intro els h
    simp only [renderOrderingObjects, Except.ok.injEq] at h
    subst h
    simp
  | cons item rest ih =>
    intro els h
    unfold renderOrderingObjects at h
    split at h
    · simp at h
    · rename_i el hel
      split at h
      · simp at h
      · rename_i els' hrest
        simp only [Except.ok.injEq] at h
        subst h
        obtain ⟨hlen, hidx⟩ := ih _ hrest
        refine ⟨by simp [hlen], ?_⟩
        intro k it hk
        cases k with
        | zero =>
          simp only [List.getElem?_cons_zero, Option.some.injEq] at hk
          subst hk
          exact ⟨el, by simp, hel⟩
        | succ k =>
          rw [List.getElem?_cons_succ] at hk
          obtain ⟨e, he1, he2⟩ := hidx k it hk
          exact ⟨e, by simpa using he1, he2⟩

/-- Whenever the render function of `TableHead` returns, the column headers of the row are
those of the entry objects that are not hidden and match a column, in order; such a column
gets a `ColumnResize` handle if and only if `hasResize` is true and (its entry object is not
the object `lastVisibleColumn`, or `showExpanderColumn` is true). -/
theorem tableHeadRowObjects_handles (options : TableHeadOptions) (columns : List TableColumn)
    (sort : SortProp) (ordering : List OrderingObject) (showExpanderColumn : Bool)
    (row : List HeadElement)
    (h : tableHeadRowObjects options columns sort ordering showExpanderColumn = .ok row) :
    ∃ els : List (Option HeadElement),
      row =
        (if options.hasRowExpansion || options.hasRowNesting then
            [HeadElement.tableExpandHeader] else []) ++
          (if options.hasRowSelection = .multi then [HeadElement.selectionHeader] else []) ++
          els.filterMap id ++
          (if showExpanderColumn then [HeadElement.expanderHeader] else []) ++
          (if options.hasRowActions then [HeadElement.rowActionsHeader] else []) ∧
      els.length = ordering.length ∧
      (∀ (k : Nat) (item : OrderingObject), ordering[k]? = some item →
        (isRenderedEntry columns item.entry = false → els[k]? = some none) ∧
        (isRenderedEntry columns item.entry = true →
          ∃ hd, els[k]? = some (some (.columnHeader hd)) ∧
            hd.columnId = item.entry.columnId ∧
            (hd.hasColumnResize = true ↔
              options.hasResize = true ∧
                (lastVisibleObject ordering ≠ some item.ref ∨
                  showExpanderColumn = true)))) := by
  unfold tableHeadRowObjects at h
  split at h
  · simp at h
  · rename_i els hels
    simp only [Except.ok.injEq] at h
    subst h
    obtain ⟨hlen, hidx⟩ := renderOrderingObjects_aligned _ _ _ _ _ _ _ hels
    refine ⟨els, rfl, hlen, ?_⟩
    intro k item hitem
    obtain ⟨el, hel, hrender⟩ := hidx k item hitem
    obtain ⟨h1, h2⟩ := renderOrderingItem_handle _ _ _ _ _ _ _ _ hrender
    refine ⟨fun hr => ?_, fun hr => ?_⟩
    · rw [hel, h1 hr]
    · obtain ⟨hd, hhd, hid, hhandle⟩ := h2 hr
      refine ⟨hd, by rw [hel, hhd], hid, ?_⟩
      rw [hhandle]
      simp only [Bool.and_eq_true, Bool.or_eq_true, decide_eq_true_eq, ne_eq]
      constructor
      · rintro ⟨a, b | b⟩
        · exact ⟨a, Or.inl fun e => b e.symm⟩
        · exact ⟨a, Or.inr b⟩
      · rintro ⟨a, b | b⟩
        · exact ⟨a, Or.inl fun e => b e.symm⟩
        · exact ⟨a, Or.inr b⟩

/-- A mount that does not throw shows the row that the render function returns. -/
theorem mountTableHead_row (utils : WidthUtilities) (boundingWidth : String → Int)
    (options : TableHeadOptions) (columns : List TableColumn) (sort : SortProp)
    (ordering : List OrderingObject) (showExpanderColumn : Bool)
    (row : List HeadElement) (widths : Option WidthsMap)
    (h : mountTableHead utils boundingWidth options columns sort ordering showExpanderColumn
      = .ok (row, widths)) :
    tableHeadRowObjects options columns sort ordering showExpanderColumn = .ok row := by
  unfold mountTableHead at h
  split at h
  · simp at h
  · rename_i row' hrow
    rw [hrow]
    split at h
    · simp only at h
      split at h
      · simp at h
      · split at h
        · simp at h
        · simp only [Except.ok.injEq, Prod.mk.injEq] at h
          rw [h.1]
    · simp only [Except.ok.injEq, Prod.mk.injEq] at h
      rw [h.1]

/-- An entry object that occurs twice in `ordering` is the object `lastVisibleColumn` at both
places: with `hasResize`, no expander column, the columns `col1`, `col2` and an array that
holds the entry object of `col1` at the places 0 and 2, only the header of `col2` holds a
`ColumnResize` handle. -/
theorem tableHeadRowObjects_same_object_twice :
    tableHeadRowObjects ⟨false, false, .off, false, true, false⟩
        [⟨"col1", "Column 1", false, none, none, none⟩,
          ⟨"col2", "Column 2", false, none, none, none⟩]
        .missing
        [⟨0, ⟨"col1", false⟩⟩, ⟨1, ⟨"col2", false⟩⟩, ⟨0, ⟨"col1", false⟩⟩] false =
      .ok [.columnHeader ⟨"col1", false, "NONE", -1, "start", false, false⟩,
        .columnHeader ⟨"col2", false, "NONE", -1, "start", false, true⟩,
        .columnHeader ⟨"col1", false, "NONE", -1, "start", false, false⟩] := by
  rfl

/-- C11 (failing input): with `hasResize`, no expander column, the columns `col1`, `col2`,
the sort on `col1` and the ordering `ghost1`, `col1`, `col2`, `ghost2` (four distinct
objects, none hidden), `lastVisibleColumn` is the entry `ghost2`, which matches no column,
and the render function returns the headers of `col1` and `col2`, each with a
`ColumnResize` handle: the last visible column, `col2`, holds a handle, and the row has 2
handles for its `n = 2` visible columns, not `n - 1 = 1`. Whatever the functions of
`columnWidthUtilityFunctions` return, the mount either throws in the layout effect or shows
this row with its 2 handles. -/
theorem tableHead_last_visible_column_handle (utils : WidthUtilities)
    (boundingWidth : String → Int) :
    lastVisibleObject
        [⟨0, ⟨"ghost1", false⟩⟩, ⟨1, ⟨"col1", false⟩⟩, ⟨2, ⟨"col2", false⟩⟩,
          ⟨3, ⟨"ghost2", false⟩⟩] = some 3 ∧
      tableHeadRowObjects ⟨false, false, .off, false, true, false⟩
          [⟨"col1", "Column 1", false, none, none, none⟩,
            ⟨"col2", "Column 2", false, none, none, none⟩]
          (.single ⟨"col1", "ASC"⟩)
          [⟨0, ⟨"ghost1", false⟩⟩, ⟨1, ⟨"col1", false⟩⟩, ⟨2, ⟨"col2", false⟩⟩,
            ⟨3, ⟨"ghost2", false⟩⟩] false =
        .ok [.columnHeader ⟨"col1", true, "ASC", -1, "start", false, true⟩,
          .columnHeader ⟨"col2", false, "NONE", -1, "start", false, true⟩] ∧
      countResizeHandles [.columnHeader ⟨"col1", true, "ASC", -1, "start", false, true⟩,
        .columnHeader ⟨"col2", false, "NONE", -1, "start", false, true⟩] = 2 ∧
      countTableHeaders [.columnHeader ⟨"col1", true, "ASC", -1, "start", false, true⟩,
        .columnHeader ⟨"col2", false, "NONE", -1, "start", false, true⟩] = 2 ∧
      ((∃ e, mountTableHead utils boundingWidth ⟨false, false, .off, false, true, false⟩
            [⟨"col1", "Column 1", false, none, none, none⟩,
              ⟨"col2", "Column 2", false, none, none, none⟩]
            (.single ⟨"col1", "ASC"⟩)
            [⟨0, ⟨"ghost1", false⟩⟩, ⟨1, ⟨"col1", false⟩⟩, ⟨2, ⟨"col2", false⟩⟩,
              ⟨3, ⟨"ghost2", false⟩⟩] false = .error e) ∨
        (∃ widths, mountTableHead utils boundingWidth
            ⟨false, false, .off, false, true, false⟩
            [⟨"col1", "Column 1", false, none, none, none⟩,
              ⟨"col2", "Column 2", false, none, none, none⟩]
            (.single ⟨"col1", "ASC"⟩)
            [⟨0, ⟨"ghost1", false⟩⟩, ⟨1, ⟨"col1", false⟩⟩, ⟨2, ⟨"col2", false⟩⟩,
              ⟨3, ⟨"ghost2", false⟩⟩] false =
          .ok ([.columnHeader ⟨"col1", true, "ASC", -1, "start", false, true⟩,
            .columnHeader ⟨"col2", false, "NONE", -1, "start", false, true⟩], widths))) := by
  have hrow : tableHeadRowObjects ⟨false, false, .off, false, true, false⟩
      [⟨"col1", "Column 1", false, none, none, none⟩,
        ⟨"col2", "Column 2", false, none, none, none⟩]
      (.single ⟨"col1", "ASC"⟩)
      [⟨0, ⟨"ghost1", false⟩⟩, ⟨1, ⟨"col1", false⟩⟩, ⟨2, ⟨"col2", false⟩⟩,
        ⟨3, ⟨"ghost2", false⟩⟩] false =
    .ok [.columnHeader ⟨"col1", true, "ASC", -1, "start", false, true⟩,
      .columnHeader ⟨"col2", false, "NONE", -1, "start", false, true⟩] := rfl
  refine ⟨rfl, hrow, rfl, rfl, ?_⟩
  unfold mountTableHead
  rw [hrow]
  simp only []
  split
  · split
    · rename_i e _
      exact Or.inl ⟨e, rfl⟩
    · split
      · rename_i e _
        exact Or.inl ⟨e, rfl⟩
      · rename_i newWidthsMap _
        exact Or.inr ⟨some newWidthsMap, rfl⟩
  · rename_i hcond
    exact absurd rfl hcond

/-! ## Theorems on `updateColumnWidths` -/

theorem updatedColumns_spec (newColumnWidths : WidthsMap) :
    ∀ (columns : List TableColumn),
      (∀ col ∈ columns, ∃ entry, newColumnWidths.lookup col.id = some entry) →
      ∃ updated, updatedColumns newColumnWidths columns = .ok updated ∧
        updated.length = columns.length ∧
        ∀ (k : Nat) (col : TableColumn), columns[k]? = some col →
          ∃ entry : ColumnWidth, newColumnWidths.lookup col.id = some entry ∧
            updated[k]? = some { col with
              width :=
                match entry.width with
                | some n => some (toString n ++ "px")
                | none => col.width } := by
  intro columns
  induction columns with
  | nil => intro _; exact ⟨[], rfl, rfl, by simp⟩
  | cons col rest ih =>
    intro hall
    obtain ⟨entry, hentry⟩ := hall col (by simp)
    obtain ⟨updated, hupd, hlen, hidx⟩ := ih (fun c hc => hall c (by simp [hc]))
    refine ⟨{ col with
        width :=
          match entry.width with
          | some n => some (toString n ++ "px")
          | none => col.width } :: updated, ?_, by simp [hlen], ?_⟩
    · unfold updatedColumns updateColumnWidth
      rw [hentry]
      simp only
      rw [hupd]
    · intro k c hk
      cases k with
      | zero =>
        simp only [List.getElem?_cons_zero, Option.some.injEq] at hk
        subst hk
        exact ⟨entry, hentry, by simp⟩
      | succ k =>
        rw [List.getElem?_cons_succ] at hk
        obtain ⟨e, he1, he2⟩ := hidx k c hk
        exact ⟨e, he1, by rw [List.getElem?_cons_succ]; exact he2⟩

/-- C12: for every columns list and every widths map with an entry for each column id,
`updateColumnWidths` hands the map to `setCurrentColumnWidths` and reports to
`onColumnResize` a list of the same length and order as `columns`, in which each column keeps
all its other fields and has the width `<n>px` when the map's width `n` for the column is
defined and its original width otherwise. -/
theorem updateColumnWidths_reports (columns : List TableColumn) (newColumnWidths : WidthsMap)
    (hall : ∀ col ∈ columns, ∃ entry, newColumnWidths.lookup col.id = some entry) :
    ∃ updated,
      updateColumnWidths columns true newColumnWidths =
        .ok { currentColumnWidths := newColumnWidths, reported := some updated } ∧
      updated.length = columns.length ∧
      ∀ (k : Nat) (col : TableColumn), columns[k]? = some col →
        ∃ (entry : ColumnWidth) (u : TableColumn),
          newColumnWidths.lookup col.id = some entry ∧ updated[k]? = some u ∧
          u.id = col.id ∧ u.name = col.name ∧ u.isSortable = col.isSortable ∧
          u.align = col.align ∧ u.overflowMenuItems = col.overflowMenuItems ∧
          (∀ n, entry.width = some n → u.width = some (toString n ++ "px")) ∧
          (entry.width = none → u.width = col.width) := by
  obtain ⟨updated, hupd, hlen, hidx⟩ := updatedColumns_spec newColumnWidths columns hall
  refine ⟨updated, ?_, hlen, ?_⟩
  · unfold updateColumnWidths
    rw [hupd]
    rfl
  · intro k col hk
    obtain ⟨entry, he1, he2⟩ := hidx k col hk
    refine ⟨entry, _, he1, he2, rfl, rfl, rfl, rfl, rfl, ?_, ?_⟩
    · intro n hn; simp only [hn]
    · intro hn; simp only [hn]

/-- Witness for C12: the columns and widths of the test that hides `col1`. -/
theorem updateColumnWidths_reports_witness :
    (∀ col ∈ [TableColumn.mk "col1" "Column 1" false none none (some "100px"),
          ⟨"col2", "Column 2", false, none, none, none⟩],
        ∃ entry, List.lookup col.id
          [("col1", ColumnWidth.mk "col1" none), ("col2", ⟨"col2", some 150⟩)] = some entry) ∧
      ∃ updated,
        updateColumnWidths [⟨"col1", "Column 1", false, none, none, some "100px"⟩,
            ⟨"col2", "Column 2", false, none, none, none⟩] true
          [("col1", ⟨"col1", none⟩), ("col2", ⟨"col2", some 150⟩)] =
          .ok { currentColumnWidths := [("col1", ⟨"col1", none⟩), ("col2", ⟨"col2", some 150⟩)]
                reported := some updated } ∧
        updated = [⟨"col1", "Column 1", false, none, none, some "100px"⟩,
          ⟨"col2", "Column 2", false, none, none, some "150px"⟩] :=
  have hall : ∀ col ∈ [TableColumn.mk "col1" "Column 1" false none none (some "100px"),
        ⟨"col2", "Column 2", false, none, none, none⟩],
      ∃ entry, List.lookup col.id
        [("col1", ColumnWidth.mk "col1" none), ("col2", ⟨"col2", some 150⟩)] = some entry := by
    intro col hcol
    simp only [List.mem_cons, List.mem_singleton, List.not_mem_nil, or_false] at hcol
    rcases hcol with rfl | rfl
    · exact ⟨_, rfl⟩
    · exact ⟨_, rfl⟩
  ⟨hall, by
    obtain ⟨updated, hupd, -, -⟩ := updateColumnWidths_reports _ _ hall
    refine ⟨updated, hupd, ?_⟩
    have hval : updateColumnWidths [⟨"col1", "Column 1", false, none, none, some "100px"⟩,
          ⟨"col2", "Column 2", false, none, none, none⟩] true
        [("col1", ⟨"col1", none⟩), ("col2", ⟨"col2", some 150⟩)] =
        .ok { currentColumnWidths := [("col1", ⟨"col1", none⟩), ("col2", ⟨"col2", some 150⟩)]
              reported := some [⟨"col1", "Column 1", false, none, none, some "100px"⟩,
                ⟨"col2", "Column 2", false, none, none, some "150px"⟩] } := rfl
    rw [hval] at hupd
    simp only [Except.ok.injEq, WidthsUpdate.mk.injEq, Option.some.injEq, true_and] at hupd
    exact hupd.symm⟩

/-! ## Theorems on `handleMouseUp` -/

theorem addAncestorOffsets_sum (ancestor : DomElement) :
    ∀ offset : PageOffset,
      (addAncestorOffsets offset ancestor).top =
          offset.top + (ancestor.offsetChain.map DomElement.offsetTop).sum ∧
        (addAncestorOffsets offset ancestor).left =
          offset.left + (ancestor.offsetChain.map DomElement.offsetLeft).sum := by
  induction ancestor with
  | root t l =>
    intro offset
    simp [addAncestorOffsets, DomElement.offsetChain, DomElement.offsetTop,
      DomElement.offsetLeft]
  | child t l p ih =>
    intro offset
    obtain ⟨h1, h2⟩ := ih { top := offset.top + t, left := offset.left + l }
    simp only [addAncestorOffsets, DomElement.offsetChain, List.map_cons, List.sum_cons,
      DomElement.offsetTop, DomElement.offsetLeft, h1, h2]
    constructor <;> ring

theorem getAccumulatedOffset_sum (imageElement : DomElement) :
    (getAccumulatedOffset imageElement).top =
        (imageElement.offsetChain.map DomElement.offsetTop).sum ∧
      (getAccumulatedOffset imageElement).left =
        (imageElement.offsetChain.map DomElement.offsetLeft).sum := by
  cases imageElement with
  | root t l =>
    simp [getAccumulatedOffset, DomElement.offsetParent, DomElement.offsetChain,
      DomElement.offsetTop, DomElement.offsetLeft]
  | child t l p =>
    obtain ⟨h1, h2⟩ := addAncestorOffsets_sum p { top := t, left := l }
    simp only [getAccumulatedOffset, DomElement.offsetParent, DomElement.offsetChain,
      List.map_cons, List.sum_cons, DomElement.offsetTop, DomElement.offsetLeft, h1, h2]
    exact ⟨trivial, trivial⟩

/-- C13: `handleMouseUp` calls the callback exactly once if `isEditable` is true,
`cursor.imageMousedown` is truthy and a callback is given, and not at all otherwise; the
argument is `x = (clientX - left) / image.width * 100`, `y = (clientY - top) / image.height *
100`, where `left` and `top` are the sums of `offsetLeft` and `offsetTop` over the target
and its chain of `offsetParent`s: the rational value of that quotient for a width or height
that is not 0; for one that is 0, `NaN` when the dividend is 0 and else the infinity of the
sign of the dividend; `NaN` for one that is undefined; in every case the updater handed to
`setCursor` sets `dragPrepared` and `imageMousedown` to false and keeps the other fields. -/
theorem handleMouseUp_reports (event : MouseUpEvent) (image : ImageSize)
    (cursor : Option Cursor) (isEditable hasCallback : Bool) :
    ((isEditable = true ∧ (∃ c, cursor = some c ∧ c.imageMousedown = some true) ∧
        hasCallback = true) →
      ∃ p : HotspotPosition,
        (handleMouseUp event image cursor isEditable hasCallback).callbackCalls = [p] ∧
        (∀ w, image.width = some w → w ≠ 0 →
          p.x = .finite ((event.clientX -
            (event.currentTarget.offsetChain.map DomElement.offsetLeft).sum) / w * 100)) ∧
        (image.width = some 0 →
          p.x = if event.clientX -
              (event.currentTarget.offsetChain.map DomElement.offsetLeft).sum = 0 then .nan
            else .infinity (decide (event.clientX -
              (event.currentTarget.offsetChain.map DomElement.offsetLeft).sum < 0))) ∧
        (image.width = none → p.x = .nan) ∧
        (∀ h, image.height = some h → h ≠ 0 →
          p.y = .finite ((event.clientY -
            (event.currentTarget.offsetChain.map DomElement.offsetTop).sum) / h * 100)) ∧
        (image.height = some 0 →
          p.y = if event.clientY -
              (event.currentTarget.offsetChain.map DomElement.offsetTop).sum = 0 then .nan
            else .infinity (decide (event.clientY -
              (event.currentTarget.offsetChain.map DomElement.offsetTop).sum < 0))) ∧
        (image.height = none → p.y = .nan)) ∧
    (¬ (isEditable = true ∧ (∃ c, cursor = some c ∧ c.imageMousedown = some true) ∧
        hasCallback = true) →
      (handleMouseUp event image cursor isEditable hasCallback).callbackCalls = []) ∧
    (∀ c : Cursor,
      ((handleMouseUp event image cursor isEditable hasCallback).cursorUpdate c).dragPrepared
          = some false ∧
        ((handleMouseUp event image cursor isEditable hasCallback).cursorUpdate
          c).imageMousedown = some false ∧
        ((handleMouseUp event image cursor isEditable hasCallback).cursorUpdate c).cursorX
          = c.cursorX ∧
        ((handleMouseUp event image cursor isEditable hasCallback).cursorUpdate c).cursorY
          = c.cursorY ∧
        ((handleMouseUp event image cursor isEditable hasCallback).cursorUpdate c).dragging
          = c.dragging) := by
  obtain ⟨htop, hleft⟩ := getAccumulatedOffset_sum event.currentTarget
  refine ⟨?_, ?_, fun c => ⟨rfl, rfl, rfl, rfl, rfl⟩⟩
  · rintro ⟨he, ⟨c, rfl, hc⟩, hcb⟩
    refine ⟨⟨(jsDivide (event.clientX - (getAccumulatedOffset event.currentTarget).left)
        image.width).times 100,
      (jsDivide (event.clientY - (getAccumulatedOffset event.currentTarget).top)
        image.height).times 100⟩, ?_, ?_, ?_, ?_, ?_, ?_, ?_⟩
    · simp only [handleMouseUp, he, hc, hcb, decide_True, Bool.and_self, if_true]
    · intro w hw hw0
      simp only [hw, jsDivide, hw0, if_false, JsNumber.times, hleft]
    · intro hw
      simp only [hw, jsDivide, if_true, hleft]
      split
      · rfl
      · simp [JsNumber.times]
    · intro hw
      simp only [hw, jsDivide, JsNumber.times]
    · intro h hh hh0
      simp only [hh, jsDivide, hh0, if_false, JsNumber.times, htop]
    · intro hh
      simp only [hh, jsDivide, if_true, htop]
      split
      · rfl
      · simp [JsNumber.times]
    · intro hh
      simp only [hh, jsDivide, JsNumber.times]
  · intro hnot
    simp only [handleMouseUp]
    split
    · rename_i hcond
      split
      · rename_i hcb
        exfalso
        apply hnot
        simp only [Bool.and_eq_true] at hcond
        refine ⟨hcond.1, ?_, hcb⟩
        cases cursor with
        | none => simp at hcond
        | some c => exact ⟨c, rfl, by simpa using hcond.2⟩
      · rfl
    · rfl

/-- Witness for C13: a click at (150, 80) on an editable image of 200 by 100 that sits at
(10, 20) in a parent at (40, 10) is reported as (50, 50). -/
theorem handleMouseUp_reports_witness :
    (true = true ∧ (∃ c, some (Cursor.mk none none none none (some true)) = some c ∧
          c.imageMousedown = some true) ∧ true = true) ∧
      (handleMouseUp ⟨150, 80, .child 20 10 (.root 10 40)⟩ ⟨some 200, some 100⟩
          (some ⟨none, none, none, none, some true⟩) true true).callbackCalls =
        [{ x := .finite 50, y := .finite 50 }] :=
  ⟨⟨rfl, ⟨_, rfl, rfl⟩, rfl⟩, by
    obtain ⟨p, hp, hx, -, -, hy, -, -⟩ := (handleMouseUp_reports
      ⟨150, 80, .child 20 10 (.root 10 40)⟩ ⟨some 200, some 100⟩
      (some ⟨none, none, none, none, some true⟩) true true).1 ⟨rfl, ⟨_, rfl, rfl⟩, rfl⟩
    have h1 := hx 200 rfl (by norm_num)
    have h2 := hy 100 rfl (by norm_num)
    rw [hp]
    cases p with
    | mk px py =>
      simp only at h1 h2
      subst h1
      subst h2
      simp [DomElement.offsetChain, DomElement.offsetLeft, DomElement.offsetTop]
      norm_num⟩

/-- Before an image is loaded the `image` state is `{}`: the callback argument of a click
is then `NaN` in both coordinates. -/
theorem handleMouseUp_image_not_loaded (event : MouseUpEvent) :
    (handleMouseUp event ⟨none, none⟩ (some ⟨none, none, none, none, some true⟩)
      true true).callbackCalls = [{ x := .nan, y := .nan }] := by
  simp [handleMouseUp, jsDivide, JsNumber.times]

/-- For an image of width and height 0 a click at (150, 80) on a target at (0, 0) is
reported as `Infinity` in both coordinates. -/
theorem handleMouseUp_image_of_size_zero :
    (handleMouseUp ⟨150, 80, .root 0 0⟩ ⟨some 0, some 0⟩
      (some ⟨none, none, none, none, some true⟩) true true).callbackCalls =
        [{ x := .infinity false, y := .infinity false }] := by
  simp [handleMouseUp, jsDivide, JsNumber.times, getAccumulatedOffset,
    DomElement.offsetParent, DomElement.offsetTop, DomElement.offsetLeft]

end CarbonIot
